import Mathlib

/-!
# Canny edge detector of `src/omv/img/edge.c`

A shallow embedding of `imlib_edge_canny` and a verification of its stages.

Modelling decisions.

* A C buffer is a total map from the flat `int` index to its cell; `buf_set` is a store.
  `uint8_t` samples and the `uint16_t` fields of `gvec_t` are natural numbers; the store of an
  `int` into a `uint16_t` field reduces it modulo `2^16`.
* `int` arithmetic is exact: with 8-bit samples the Sobel sums are at most 1020 in absolute
  value and an index is bounded by the size of the buffer, so no `int` wraps.
* A `for (int i = lo; i < hi; i++)` loop is `for_range lo hi`, which runs its body
  `(hi - lo).toNat` times on `lo, lo+1, ...`.
* The code that is called but not defined in `edge.c` (`imlib_morph`, `fast_sqrtf`,
  `fast_fabsf`, `atan2f`) is the parameter `externals`; a finite `float` is a rational number
  and `(int)` truncates it toward zero.
* The `switch` of the last stage has no `default`: for a direction outside `0, 45, 90, 135` the
  pointers `va`, `vb` stay `NULL` and the comparison dereferences them.  The last stage therefore
  returns an `Option`, `none` standing for that dereference.
-/

namespace Canny

/-! ## Data model -/

/-- The rectangle `rectangle_t` of `imlib.h`: corner `(x, y)`, width `w`, height `h`. -/
structure rectangle_t where
  x : Int
  y : Int
  w : Int
  h : Int

/-- One entry of the gradient field, `gvec_t` (lines 15-18): direction `t`, magnitude `g`. -/
structure gvec_t where
  t : Nat
  g : Nat
deriving DecidableEq

/-- A grayscale image `image_t`: width, height and the row-major sample buffer. -/
structure image_t where
  w : Int
  h : Int
  data : Int → Nat

/-- The operations `imlib_edge_canny` calls and `edge.c` does not define.  A finite `float` is
a rational number.  `imlib_morph src` is the sample buffer after
`imlib_morph(src, 2, kernel_gauss_55, 1.0f/159.0f, 0.0f)`; `fast_sqrtf n` is `fast_sqrtf(n)`;
`atan2f_deg vy vx` is `atan2f(vy, vx)*180.0f/M_PI`. -/
structure externals where
  imlib_morph : image_t → (Int → Nat)
  fast_sqrtf : Int → ℚ
  fast_fabsf : ℚ → ℚ
  atan2f_deg : Int → Int → ℚ

/-- The conversion `(int)` of a `float`: truncation toward zero. -/
def int_cast (q : ℚ) : Int := if 0 ≤ q then Int.floor q else Int.ceil q

/-- The store `buf[i] = v`. -/
def buf_set {α : Type} (buf : Int → α) (i : Int) (v : α) : Int → α :=
  fun j => if j = i then v else buf j

/-- The body `body i` run `n` times for `i = lo, lo+1, ...`. -/
def for_loop {σ : Type} (body : Int → σ → σ) : Nat → Int → σ → σ
  | 0, _, s => s
  | n + 1, i, s => for_loop body n (i + 1) (body i s)

/-- The loop `for (int i = lo; i < hi; i++) body`. -/
def for_range {σ : Type} (lo hi : Int) (body : Int → σ → σ) (s : σ) : σ :=
  for_loop body (hi - lo).toNat lo s

/-- The loop `for_loop` with a body that may fail. -/
def for_loop_opt {σ : Type} (body : Int → σ → Option σ) : Nat → Int → σ → Option σ
  | 0, _, s => some s
  | n + 1, i, s => (body i s).bind (for_loop_opt body n (i + 1))

/-- The loop `for (int i = lo; i < hi; i++) body` with a body that may fail. -/
def for_range_opt {σ : Type} (lo hi : Int) (body : Int → σ → Option σ) (s : σ) : Option σ :=
  for_loop_opt body (hi - lo).toNat lo s

/-- The ROI lies inside the image (the caller's contract). -/
def roi_inside (w h : Int) (roi : rectangle_t) : Prop :=
  0 ≤ roi.x ∧ 0 ≤ roi.y ∧ 0 ≤ roi.w ∧ 0 ≤ roi.h ∧ roi.x + roi.w ≤ w ∧ roi.y + roi.h ≤ h

instance (w h : Int) (roi : rectangle_t) : Decidable (roi_inside w h roi) := by
  unfold roi_inside; infer_instance

/-! ## Stage 2: gradients (lines 54-92) -/

/-- Horizontal Sobel response, lines 58-63; `<<1` acts on the promoted sample. -/
def sobel_vx (data : Int → Nat) (w x y : Int) : Int :=
  (data ((y-1)*w+x-1) : Int)
    - (data ((y-1)*w+x+1) : Int)
    + ((data ((y+0)*w+x-1) <<< 1 : Nat) : Int)
    - ((data ((y+0)*w+x+1) <<< 1 : Nat) : Int)
    + (data ((y+1)*w+x-1) : Int)
    - (data ((y+1)*w+x+1) : Int)

/-- Vertical Sobel response, lines 66-71. -/
def sobel_vy (data : Int → Nat) (w x y : Int) : Int :=
  (data ((y-1)*w+x-1) : Int)
    + ((data ((y-1)*w+x+0) <<< 1 : Nat) : Int)
    + (data ((y-1)*w+x+1) : Int)
    - (data ((y+1)*w+x-1) : Int)
    - ((data ((y+1)*w+x+0) <<< 1 : Nat) : Int)
    - (data ((y+1)*w+x+1) : Int)

/-- The `if` chain of lines 77-87; an angle above 180 is left as it is. -/
def quantize (t : Int) : Int :=
  if t < 22 then 0
  else if t < 67 then 45
  else if t < 112 then 90
  else if t < 160 then 135
  else if t ≤ 180 then 0
  else t

/-- The store of an `int` into a `uint16_t` field. -/
def to_uint16 (v : Int) : Nat := (v % 65536).toNat

/-- The entry written for pixel `(x, y)`, lines 56-90. -/
def gradient_entry (E : externals) (data : Int → Nat) (w x y : Int) : gvec_t :=
  let vx := sobel_vx data w x y
  let vy := sobel_vy data w x y
  let g : Int := int_cast (E.fast_sqrtf (vx*vx + vy*vy))
  let t : Int := int_cast (E.fast_fabsf (E.atan2f_deg vy vx))
  let t := quantize t
  { t := to_uint16 t, g := to_uint16 g }

/-- The body of the gradient loops for pixel `(x, y)`. -/
def gradient_pixel (E : externals) (data : Int → Nat) (w : Int) (gm : Int → gvec_t)
    (x y : Int) : Int → gvec_t :=
  buf_set gm (y*w+x) (gradient_entry E data w x y)

/-- The gradient stage, lines 54-92. -/
def gradient (E : externals) (data : Int → Nat) (w : Int) (roi : rectangle_t)
    (gm : Int → gvec_t) : Int → gvec_t :=
  for_range (roi.y+1) (roi.y+roi.h-1)
    (fun y gm => for_range (roi.x+1) (roi.x+roi.w-1)
      (fun x gm => gradient_pixel E data w gm x y) gm) gm

/-! ## Stage 3: hysteresis (lines 95-115) -/

/-- One of the 8 neighbours of `(x, y)` has magnitude `>= high_thresh`, lines 102-109. -/
def strong_neighbour (gm : Int → gvec_t) (w high : Int) (x y : Int) : Prop :=
  ((gm ((y-1)*w+(x-1))).g : Int) ≥ high ∨
  ((gm ((y-1)*w+(x+0))).g : Int) ≥ high ∨
  ((gm ((y-1)*w+(x+1))).g : Int) ≥ high ∨
  ((gm ((y+0)*w+(x-1))).g : Int) ≥ high ∨
  ((gm ((y+0)*w+(x+1))).g : Int) ≥ high ∨
  ((gm ((y+1)*w+(x-1))).g : Int) ≥ high ∨
  ((gm ((y+1)*w+(x+0))).g : Int) ≥ high ∨
  ((gm ((y+1)*w+(x+1))).g : Int) ≥ high

instance (gm : Int → gvec_t) (w high x y : Int) : Decidable (strong_neighbour gm w high x y) := by
  unfold strong_neighbour; infer_instance

/-- The entry the hysteresis body leaves at `(x, y)` when it runs on the field `gm`,
lines 97-113. -/
def hysteresis_entry (w low high : Int) (gm : Int → gvec_t) (x y : Int) : gvec_t :=
  let vc := gm (y*w+x)
  if (vc.g : Int) ≥ high then { vc with g := vc.g }
  else if (vc.g : Int) < low then { vc with g := 0 }
  else if strong_neighbour gm w high x y then { vc with g := vc.g }
  else { vc with g := 0 }

/-- The body of the hysteresis loops for pixel `(x, y)`: it reads and writes `gm` in place. -/
def hysteresis_pixel (w low high : Int) (gm : Int → gvec_t) (x y : Int) : Int → gvec_t :=
  buf_set gm (y*w+x) (hysteresis_entry w low high gm x y)

/-- The hysteresis stage, lines 95-115. -/
def hysteresis (w : Int) (roi : rectangle_t) (low high : Int) (gm : Int → gvec_t) :
    Int → gvec_t :=
  for_range (roi.y+1) (roi.y+roi.h-1)
    (fun y gm => for_range (roi.x+1) (roi.x+roi.w-1)
      (fun x gm => hysteresis_pixel w low high gm x y) gm) gm

/-! ## Stage 4: non-maximum suppression (lines 118-161) -/

/-- The `switch` of lines 129-153: the indices of `va` and `vb`, `none` when they stay `NULL`. -/
def nms_select (w : Int) (t : Nat) (x y : Int) : Option (Int × Int) :=
  if t = 0 then some ((y+0)*w+(x-1), (y+0)*w+(x+1))
  else if t = 45 then some ((y+1)*w+(x-1), (y-1)*w+(x+1))
  else if t = 90 then some ((y+1)*w+(x+0), (y-1)*w+(x+0))
  else if t = 135 then some ((y+1)*w+(x+1), (y-1)*w+(x-1))
  else none

/-- The test of lines 123-124: `(x, y)` is within 2 of the ROI border. -/
def nms_border (roi : rectangle_t) (x y : Int) : Prop :=
  y < roi.y+2 ∨ y > roi.y+roi.h-3 ∨ x < roi.x+2 ∨ x > roi.x+roi.w-3

instance (roi : rectangle_t) (x y : Int) : Decidable (nms_border roi x y) := by
  unfold nms_border; infer_instance

/-- The body of the last loops for pixel `(x, y)`, lines 120-159. -/
def nms_pixel (w : Int) (roi : rectangle_t) (gm : Int → gvec_t) (data : Int → Nat)
    (x y : Int) : Option (Int → Nat) :=
  let i := y*w+x
  if nms_border roi x y then some (buf_set data i 0)
  else
    match nms_select w (gm i).t x y with
    | none => none
    | some (a, b) =>
      if ¬ ((gm i).g > (gm a).g ∧ (gm i).g > (gm b).g) then some (buf_set data i 0)
      else some (buf_set data i 255)

/-- The non-maximum-suppression stage, lines 118-161. -/
def nms (w : Int) (roi : rectangle_t) (gm : Int → gvec_t) (data : Int → Nat) :
    Option (Int → Nat) :=
  for_range_opt roi.y (roi.y+roi.h)
    (fun y data => for_range_opt roi.x (roi.x+roi.w)
      (fun x data => nms_pixel w roi gm data x y) data) data

/-! ## The pipeline -/

/-- The zeroed scratch buffer returned by `fb_alloc0`, line 48. -/
def fb_alloc0 : Int → gvec_t := fun _ => { t := 0, g := 0 }

/-- Stages 2 to 4 of `imlib_edge_canny` on the smoothed samples `data`. -/
def canny_stages (E : externals) (data : Int → Nat) (w : Int) (roi : rectangle_t)
    (low high : Int) : Option (Int → Nat) :=
  nms w roi (hysteresis w roi low high (gradient E data w roi fb_alloc0)) data

/-- The function `imlib_edge_canny`, lines 44-164: the image it leaves in `src`. -/
def imlib_edge_canny (E : externals) (src : image_t) (roi : rectangle_t)
    (low_thresh high_thresh : Int) : Option image_t :=
  let w := src.w
  (canny_stages E (E.imlib_morph src) w roi low_thresh high_thresh).map
    (fun d => { src with data := d })

/-! ## Vocabulary of the properties -/

/-- The pixels `(x, y)` with `y0 <= y < y1` and `x0 <= x < x1`. -/
def in_rect (x0 x1 y0 y1 x y : Int) : Prop := y0 ≤ y ∧ y < y1 ∧ x0 ≤ x ∧ x < x1

instance (x0 x1 y0 y1 x y : Int) : Decidable (in_rect x0 x1 y0 y1 x y) := by
  unfold in_rect; infer_instance

/-- Pixel `(x, y)` belongs to the ROI: the pixels the last stage visits. -/
def in_roi (roi : rectangle_t) (x y : Int) : Prop :=
  in_rect roi.x (roi.x+roi.w) roi.y (roi.y+roi.h) x y

instance (roi : rectangle_t) (x y : Int) : Decidable (in_roi roi x y) := by
  unfold in_roi; infer_instance

/-- Pixel `(x, y)` is at least 1 inside the ROI border: the pixels the gradient and hysteresis
loops visit. -/
def processed (roi : rectangle_t) (x y : Int) : Prop :=
  in_rect (roi.x+1) (roi.x+roi.w-1) (roi.y+1) (roi.y+roi.h-1) x y

instance (roi : rectangle_t) (x y : Int) : Decidable (processed roi x y) := by
  unfold processed; infer_instance

/-- State of a buffer in the middle of a scan of a rectangle: the pixels selected by `P` hold
the value `R`, every other cell holds what `g0` holds. -/
def cells_inv {α : Type} (w x0 x1 y0 y1 : Int) (R : Int → Int → α) (g0 : Int → α)
    (P : Int → Int → Prop) (s : Int → α) : Prop :=
  (∀ x y, in_rect x0 x1 y0 y1 x y → P x y → s (y*w+x) = R x y) ∧
  (∀ j, (∀ x y, in_rect x0 x1 y0 y1 x y → P x y → j ≠ y*w+x) → s j = g0 j)

/-- The four direction classes. -/
def valid_class (t : Nat) : Prop := t = 0 ∨ t = 45 ∨ t = 90 ∨ t = 135

instance (t : Nat) : Decidable (valid_class t) := by
  unfold valid_class; infer_instance

/-- The angle `t` computed on line 76 for every gradient vector lies in `[0, 180]`. -/
def angle_in_range (E : externals) : Prop :=
  ∀ vy vx : Int, 0 ≤ int_cast (E.fast_fabsf (E.atan2f_deg vy vx)) ∧
    int_cast (E.fast_fabsf (E.atan2f_deg vy vx)) ≤ 180

/-- The 8 immediate neighbours of `(x, y)`. -/
def neighbours8 (x y : Int) : List (Int × Int) :=
  [(x-1, y-1), (x, y-1), (x+1, y-1), (x-1, y), (x+1, y), (x-1, y+1), (x, y+1), (x+1, y+1)]

/-- The three-case rule of the specification for the magnitude of pixel `(x, y)`, every read
taken from the field `snap`: unchanged when it is `>= high`, 0 when it is `< low`, otherwise
unchanged when one of the 8 neighbours has magnitude `>= high` and 0 when none has. -/
def snapshot_rule (snap : Int → gvec_t) (w low high x y : Int) : Nat :=
  let m := (snap (y*w+x)).g
  if (m : Int) ≥ high then m
  else if (m : Int) < low then 0
  else if ∃ p ∈ neighbours8 x y, ((snap (p.2*w+p.1)).g : Int) ≥ high then m
  else 0

/-- The snapshot-then-write pass of the specification: the output starts as a copy of `snap`
and every processed pixel receives the magnitude `snapshot_rule` computes from `snap`. -/
def hysteresis_snapshot (w : Int) (roi : rectangle_t) (low high : Int) (snap : Int → gvec_t) :
    Int → gvec_t :=
  for_range (roi.y+1) (roi.y+roi.h-1)
    (fun y out => for_range (roi.x+1) (roi.x+roi.w-1)
      (fun x out => buf_set out (y*w+x)
        { t := (snap (y*w+x)).t, g := snapshot_rule snap w low high x y }) out) snap

/-- The neighbour pair of each direction class, as the specification lists them. -/
def spec_neighbours (t : Nat) (x y : Int) : Option ((Int × Int) × (Int × Int)) :=
  if t = 0 then some ((x-1, y), (x+1, y))
  else if t = 45 then some ((x-1, y+1), (x+1, y-1))
  else if t = 90 then some ((x, y+1), (x, y-1))
  else if t = 135 then some ((x+1, y+1), (x-1, y-1))
  else none

/-- The sample the last stage stores at `(x, y)` when `va`, `vb` are not `NULL`. -/
def nms_out (w : Int) (roi : rectangle_t) (gm : Int → gvec_t) (x y : Int) : Nat :=
  if nms_border roi x y then 0
  else
    match nms_select w (gm (y*w+x)).t x y with
    | none => 0
    | some (a, b) =>
      if ¬ ((gm (y*w+x)).g > (gm a).g ∧ (gm (y*w+x)).g > (gm b).g) then 0 else 255

/-- The last stage with the stored sample given by `nms_out`. -/
def nms_pure (w : Int) (roi : rectangle_t) (gm : Int → gvec_t) (data : Int → Nat) : Int → Nat :=
  for_range roi.y (roi.y+roi.h)
    (fun y data => for_range roi.x (roi.x+roi.w)
      (fun x data => buf_set data (y*w+x) (nms_out w roi gm x y)) data) data

/-! ## Concrete inputs used in the examples -/

/-- An instance of the external operations: no smoothing, the integer square root, the exact
absolute value, and the angle of the axis or diagonal of the quadrant of `(vx, vy)`. -/
def example_externals : externals where
  imlib_morph := fun src => src.data
  fast_sqrtf := fun n => (Nat.sqrt n.toNat : ℚ)
  fast_fabsf := fun q => |q|
  atan2f_deg := fun vy vx =>
    if vy = 0 then (if vx < 0 then 180 else 0)
    else if vx = 0 then (if vy < 0 then -90 else 90)
    else if 0 < vx then (if 0 < vy then 45 else -45)
    else (if 0 < vy then 135 else -135)

/-- A 6x6 image with a vertical step between columns 2 and 3. -/
def example_image : image_t :=
  { w := 6, h := 6, data := fun i => if 3 ≤ i % 6 then 200 else 10 }

/-- The whole 6x6 image as ROI. -/
def example_roi : rectangle_t := { x := 0, y := 0, w := 6, h := 6 }

/-- A gradient field of a 6x6 image: a strong pixel at `(2, 2)`, a weak one at `(3, 2)`. -/
def example_field : Int → gvec_t :=
  fun i => if i = 14 then { t := 0, g := 120 } else if i = 15 then { t := 0, g := 50 }
    else { t := 0, g := 0 }

/-- A 6x6 image with all samples equal to 77. -/
def uniform_image : image_t := { w := 6, h := 6, data := fun _ => 77 }

/-! ## The step scenario -/

/-- The coefficients `kernel_gauss_55`, lines 26-32. -/
def kernel_gauss_55 : List Int :=
  [2, 4,  5,  4,  2,
   4, 9,  12, 9,  4,
   5, 12, 15, 12, 5,
   4, 9,  12, 9,  4,
   2, 4,  5,  4,  2]

/-- Modelled from the spec: `imlib_morph`, the generic linear filter, is not in `edge.c`.
The kernel-weighted sum over the window of half-width `ksize` around `(x, y)`, the kernel being
stored row by row and `pix` reading the sample of a pixel. -/
def morph_acc (ksize : Nat) (krn : List Int) (pix : Int → Int → Nat) (x y : Int) : Int :=
  ((List.range (2*ksize+1)).map fun j =>
    ((List.range (2*ksize+1)).map fun i =>
      krn.getD (j*(2*ksize+1)+i) 0 * (pix (x + i - ksize) (y + j - ksize) : Int)).sum).sum

/-- Modelled from the spec: the sample `imlib_morph` (not in `edge.c`) stores for the 5x5
Gaussian kernel scaled by 1/159: the sum divided by 159, truncated, kept in the 8-bit range. -/
def gauss_sample (pix : Int → Int → Nat) (x y : Int) : Nat :=
  (min 255 (max 0 (morph_acc 2 kernel_gauss_55 pix x y / 159))).toNat

/-- Modelled from the spec: what the specification fixes of the smoothing `imlib_morph` (not in
`edge.c`): a pixel whose 5x5 window lies in the image receives `gauss_sample` of the source
samples.  The pixels within 2 of the image border are left open. -/
def smooths_interior (E : externals) (src : image_t) : Prop :=
  ∀ x y, 2 ≤ x → x < src.w - 2 → 2 ≤ y → y < src.h - 2 →
    E.imlib_morph src (y*src.w+x) = gauss_sample (fun x' y' => src.data (y'*src.w+x')) x y

/-- The coordinate `v` moved into `[0, n-1]`. -/
def clampi (v n : Int) : Int := max 0 (min (n - 1) v)

/-- Modelled from the spec: one smoothing `imlib_morph` (not in `edge.c`) of the kind the
specification describes, which reads the nearest image sample for a window position outside
the image. -/
def imlib_morph_clamped (src : image_t) : Int → Nat :=
  fun i => gauss_sample (fun x' y' => src.data (clampi y' src.h * src.w + clampi x' src.w))
    (i % src.w) (i / src.w)

/-- The external operations of the scenario: the smoothing `imlib_morph_clamped`, the integer
square root, the exact absolute value and the angle of `example_externals`. -/
def scenario_externals : externals :=
  { example_externals with imlib_morph := imlib_morph_clamped }

/-- The 20x20 image with columns 0..9 equal to 0 and columns 10..19 equal to 255. -/
def step_image : image_t :=
  { w := 20, h := 20, data := fun i => if 10 ≤ i % 20 then 255 else 0 }

/-- The ROI `(0, 0, 20, 20)`. -/
def step_roi : rectangle_t := { x := 0, y := 0, w := 20, h := 20 }

/-- The sample of column `x` of the step image. -/
def step_col (x : Int) : Nat := if 10 ≤ x then 255 else 0

/-- The sample of column `x` of the smoothed step image. -/
def step_profile (x : Int) : Nat :=
  if x ≤ 7 then 0 else if x = 8 then 27 else if x = 9 then 88 else if x = 10 then 166
  else if x = 11 then 227 else 255

/-- The gradient magnitude of column `x` of the smoothed step image. -/
def step_mag (x : Int) : Nat :=
  if x ≤ 6 then 0 else if x = 7 then 108 else if x = 8 then 352 else if x = 9 then 556
  else if x = 10 then 556 else if x = 11 then 356 else if x = 12 then 112 else 0

/-! ## Vocabulary of the stage behaviour -/

/-- The horizontal Sobel sum as the specification writes it, `p a b` being the sample of the
pixel `(a, b)`. -/
def spec_sobel_vx (p : Int → Int → Int) (x y : Int) : Int :=
  p (x-1) (y-1) + 2 * p (x-1) y + p (x-1) (y+1)
    - p (x+1) (y-1) - 2 * p (x+1) y - p (x+1) (y+1)

/-- The vertical Sobel sum as the specification writes it. -/
def spec_sobel_vy (p : Int → Int → Int) (x y : Int) : Int :=
  p (x-1) (y-1) + 2 * p x (y-1) + p (x+1) (y-1)
    - p (x-1) (y+1) - 2 * p x (y+1) - p (x+1) (y+1)

/-- A gradient field of a 6x6 image with a chain on row 2: a strong pixel at `(2, 2)` and weak
pixels at `(3, 2)` and `(4, 2)`. -/
def chain_field : Int → gvec_t :=
  fun i => if i = 14 then { t := 0, g := 120 } else if i = 15 then { t := 0, g := 50 }
    else if i = 16 then { t := 0, g := 50 } else { t := 0, g := 0 }

/-- The distance of the integer angle `t` to the orientation `c`, as the specification
measures it: `|t - c|`, and the distance to 180 for the class 0 when `t > 90`. -/
def class_dist (t c : Int) : Int := if c = 0 ∧ t > 90 then 180 - t else |t - c|

/-- A 5x5 smoothed image whose only non-zero sample, 10, is at `(1, 1)`: the top-left
neighbour of the pixel `(2, 2)`. -/
def corner_data : Int → Nat := fun i => if i = 6 then 10 else 0

/-- A 5x5 smoothed image whose only non-zero sample, 10, is at `(1, 3)`: the bottom-left
neighbour of the pixel `(2, 2)`. -/
def corner_data_low : Int → Nat := fun i => if i = 16 then 10 else 0

/-- The whole 5x5 image as ROI. -/
def corner_roi : rectangle_t := { x := 0, y := 0, w := 5, h := 5 }

/-- The vector `(dx, dy)` is collinear with `(vx, vy)`. -/
def collinear (dx dy vx vy : Int) : Prop := dx * vy - dy * vx = 0

instance (dx dy vx vy : Int) : Decidable (collinear dx dy vx vy) := by
  unfold collinear; infer_instance

/-- A 7x7 smoothed image with the samples 80 at `(0, 0)`, 10 at `(2, 1)` and 20 at `(3, 3)`. -/
def raise_data : Int → Nat :=
  fun i => if i = 0 then 80 else if i = 9 then 10 else if i = 24 then 20 else 0

/-- The whole 7x7 image as ROI. -/
def raise_roi : rectangle_t := { x := 0, y := 0, w := 7, h := 7 }

/-- The gradient field of `raise_data`, cell by cell. -/
def raise_field : Int → gvec_t := fun i =>
  if i = 8 then { t := 45, g := 100 } else if i = 10 then { t := 0, g := 20 }
  else if i = 15 then { t := 135, g := 14 } else if i = 16 then { t := 0, g := 20 }
  else if i = 17 then { t := 45, g := 31 } else if i = 18 then { t := 45, g := 28 }
  else if i = 23 then { t := 0, g := 40 } else if i = 25 then { t := 0, g := 40 }
  else if i = 30 then { t := 135, g := 28 } else if i = 31 then { t := 90, g := 40 }
  else if i = 32 then { t := 45, g := 28 } else { t := 0, g := 0 }

/-! ## Bounds-checked execution -/

/-- A checked read `buf[i]` of a buffer of `n` cells: `none` when `i` is outside `[0, n)`. -/
def read_chk {α : Type} (n : Int) (buf : Int → α) (i : Int) : Option α :=
  if 0 ≤ i ∧ i < n then some (buf i) else none

/-- A checked store `buf[i] = v` into a buffer of `n` cells. -/
def write_chk {α : Type} (n : Int) (buf : Int → α) (i : Int) (v : α) : Option (Int → α) :=
  if 0 ≤ i ∧ i < n then some (buf_set buf i v) else none

/-- The sum of lines 58-63 with checked reads, in the order of the source. -/
def sobel_vx_chk (n : Int) (data : Int → Nat) (w x y : Int) : Option Int := do
  let a ← read_chk n data ((y-1)*w+x-1)
  let b ← read_chk n data ((y-1)*w+x+1)
  let c ← read_chk n data ((y+0)*w+x-1)
  let d ← read_chk n data ((y+0)*w+x+1)
  let e ← read_chk n data ((y+1)*w+x-1)
  let f ← read_chk n data ((y+1)*w+x+1)
  pure ((a : Int) - (b : Int) + ((c <<< 1 : Nat) : Int) - ((d <<< 1 : Nat) : Int)
    + (e : Int) - (f : Int))

/-- The sum of lines 66-71 with checked reads. -/
def sobel_vy_chk (n : Int) (data : Int → Nat) (w x y : Int) : Option Int := do
  let a ← read_chk n data ((y-1)*w+x-1)
  let b ← read_chk n data ((y-1)*w+x+0)
  let c ← read_chk n data ((y-1)*w+x+1)
  let d ← read_chk n data ((y+1)*w+x-1)
  let e ← read_chk n data ((y+1)*w+x+0)
  let f ← read_chk n data ((y+1)*w+x+1)
  pure ((a : Int) + ((b <<< 1 : Nat) : Int) + (c : Int) - (d : Int)
    - ((e <<< 1 : Nat) : Int) - (f : Int))

/-- The body of the gradient loops with checked reads of the image and a checked store into the
gradient field, both of `n` cells. -/
def gradient_pixel_chk (E : externals) (n : Int) (data : Int → Nat) (w : Int)
    (gm : Int → gvec_t) (x y : Int) : Option (Int → gvec_t) := do
  let vx ← sobel_vx_chk n data w x y
  let vy ← sobel_vy_chk n data w x y
  let g : Int := int_cast (E.fast_sqrtf (vx*vx + vy*vy))
  let t : Int := int_cast (E.fast_fabsf (E.atan2f_deg vy vx))
  let t := quantize t
  write_chk n gm (y*w+x) { t := to_uint16 t, g := to_uint16 g }

/-- The gradient stage with checked accesses. -/
def gradient_chk (E : externals) (n : Int) (data : Int → Nat) (w : Int) (roi : rectangle_t)
    (gm : Int → gvec_t) : Option (Int → gvec_t) :=
  for_range_opt (roi.y+1) (roi.y+roi.h-1)
    (fun y gm => for_range_opt (roi.x+1) (roi.x+roi.w-1)
      (fun x gm => gradient_pixel_chk E n data w gm x y) gm) gm

/-- The chain of `||` of lines 102-109 with checked reads: the cells are read in order until
one has a magnitude `>= high`. -/
def any_strong_chk (n : Int) (gm : Int → gvec_t) (high : Int) : List Int → Option Bool
  | [] => some false
  | i :: rest =>
    match read_chk n gm i with
    | none => none
    | some v => if (v.g : Int) ≥ high then some true else any_strong_chk n gm high rest

/-- The indices of the 8 neighbours in the order of lines 102-109. -/
def neighbour_indices (w x y : Int) : List Int :=
  [(y-1)*w+(x-1), (y-1)*w+(x+0), (y-1)*w+(x+1), (y+0)*w+(x-1), (y+0)*w+(x+1),
   (y+1)*w+(x-1), (y+1)*w+(x+0), (y+1)*w+(x+1)]

/-- The body of the hysteresis loops with checked accesses of the gradient field. -/
def hysteresis_pixel_chk (n w low high : Int) (gm : Int → gvec_t) (x y : Int) :
    Option (Int → gvec_t) :=
  match read_chk n gm (y*w+x) with
  | none => none
  | some vc =>
    if (vc.g : Int) ≥ high then write_chk n gm (y*w+x) { vc with g := vc.g }
    else if (vc.g : Int) < low then write_chk n gm (y*w+x) { vc with g := 0 }
    else
      match any_strong_chk n gm high (neighbour_indices w x y) with
      | none => none
      | some true => write_chk n gm (y*w+x) { vc with g := vc.g }
      | some false => write_chk n gm (y*w+x) { vc with g := 0 }

/-- The hysteresis stage with checked accesses. -/
def hysteresis_chk (n w : Int) (roi : rectangle_t) (low high : Int) (gm : Int → gvec_t) :
    Option (Int → gvec_t) :=
  for_range_opt (roi.y+1) (roi.y+roi.h-1)
    (fun y gm => for_range_opt (roi.x+1) (roi.x+roi.w-1)
      (fun x gm => hysteresis_pixel_chk n w low high gm x y) gm) gm

/-- The body of the last loops with checked accesses; both `va` and `vb` are read, although the
`&&` of line 155 reads `vb` only when the first comparison holds. -/
def nms_pixel_chk (n w : Int) (roi : rectangle_t) (gm : Int → gvec_t) (data : Int → Nat)
    (x y : Int) : Option (Int → Nat) :=
  let i := y*w+x
  if nms_border roi x y then write_chk n data i 0
  else
    match read_chk n gm i with
    | none => none
    | some vc =>
      match nms_select w vc.t x y with
      | none => none
      | some (a, b) =>
        match read_chk n gm a, read_chk n gm b with
        | some va, some vb =>
          if ¬ (vc.g > va.g ∧ vc.g > vb.g) then write_chk n data i 0
          else write_chk n data i 255
        | _, _ => none

/-- The last stage with checked accesses. -/
def nms_chk (n w : Int) (roi : rectangle_t) (gm : Int → gvec_t) (data : Int → Nat) :
    Option (Int → Nat) :=
  for_range_opt roi.y (roi.y+roi.h)
    (fun y data => for_range_opt roi.x (roi.x+roi.w)
      (fun x data => nms_pixel_chk n w roi gm data x y) data) data

/-- Stages 2 to 4 with checked accesses of the two buffers of `n` cells. -/
def canny_stages_chk (E : externals) (n : Int) (data : Int → Nat) (w : Int)
    (roi : rectangle_t) (low high : Int) : Option (Int → Nat) :=
  (gradient_chk E n data w roi fb_alloc0).bind fun gm1 =>
    (hysteresis_chk n w roi low high gm1).bind fun gm2 =>
      nms_chk n w roi gm2 data

/-! ## Loops -/

theorem for_loop_inv {σ : Type} (body : Int → σ → σ) (Inv : Int → σ → Prop) :
    ∀ (n : Nat) (lo : Int) (s : σ), Inv lo s →
      (∀ i s, lo ≤ i → i < lo + n → Inv i s → Inv (i + 1) (body i s)) →
      Inv (lo + n) (for_loop body n lo s) := by
  intro n
  induction n with
  | zero => intro lo s h0 _; simpa [for_loop] using h0
  | succ n ih =>
    intro lo s h0 hstep
    have h1 : Inv (lo + 1) (body lo s) := hstep lo s (le_refl _) (by push_cast; omega) h0
    have h2 := ih (lo + 1) (body lo s) h1
      (fun i s hi hi2 hI => hstep i s (by omega) (by push_cast; omega) hI)
    have e : lo + ((n + 1 : Nat) : Int) = lo + 1 + (n : Int) := by push_cast; ring
    rw [e]
    exact h2

theorem for_range_inv {σ : Type} (lo hi : Int) (body : Int → σ → σ) (Inv : Int → σ → Prop)
    (s : σ) (h0 : Inv lo s)
    (hstep : ∀ i s, lo ≤ i → i < hi → Inv i s → Inv (i + 1) (body i s)) :
    Inv (max lo hi) (for_range lo hi body s) := by
  have e : max lo hi = lo + ((hi - lo).toNat : Int) := by
    rcases le_total lo hi with h | h
    · rw [max_eq_right h, Int.toNat_of_nonneg (by omega)]; ring
    · rw [max_eq_left h, Int.toNat_eq_zero.mpr (by omega)]; simp
  rw [e]
  apply for_loop_inv body Inv _ lo s h0
  intro i s hli hi2 hI
  apply hstep i s hli _ hI
  rcases le_total lo hi with h | h
  · rw [Int.toNat_of_nonneg (by omega)] at hi2; omega
  · rw [Int.toNat_eq_zero.mpr (by omega)] at hi2; simp at hi2; omega

theorem for_loop_opt_some {σ : Type} (body : Int → σ → Option σ) (pb : Int → σ → σ) :
    ∀ (n : Nat) (lo : Int) (s : σ),
      (∀ i s, lo ≤ i → i < lo + n → body i s = some (pb i s)) →
      for_loop_opt body n lo s = some (for_loop pb n lo s) := by
  intro n
  induction n with
  | zero => intro lo s _; rfl
  | succ n ih =>
    intro lo s h
    have h1 := h lo s (le_refl _) (by push_cast; omega)
    simp only [for_loop_opt, for_loop, h1, Option.some_bind]
    exact ih (lo + 1) (pb lo s) (fun i s hi hi2 => h i s (by omega) (by push_cast; omega))

theorem for_range_opt_some {σ : Type} (lo hi : Int) (body : Int → σ → Option σ)
    (pb : Int → σ → σ) (s : σ)
    (h : ∀ i s, lo ≤ i → i < hi → body i s = some (pb i s)) :
    for_range_opt lo hi body s = some (for_range lo hi pb s) := by
  unfold for_range_opt for_range
  apply for_loop_opt_some
  intro i s hli hi2
  apply h i s hli
  rcases le_total lo hi with h' | h'
  · rw [Int.toNat_of_nonneg (by omega)] at hi2; omega
  · rw [Int.toNat_eq_zero.mpr (by omega)] at hi2; simp at hi2; omega

theorem buf_set_same {α : Type} (buf : Int → α) (i : Int) (v : α) : buf_set buf i v i = v := by
  simp [buf_set]

theorem buf_set_other {α : Type} (buf : Int → α) (i j : Int) (v : α) (h : j ≠ i) :
    buf_set buf i v j = buf j := by
  simp [buf_set, h]

/-- Two pixels of one row-major image with the same flat index are the same pixel. -/
theorem index_inj (w x y x' y' : Int) (hx : 0 ≤ x) (hxw : x < w) (hx' : 0 ≤ x') (hxw' : x' < w)
    (h : y*w+x = y'*w+x') : x = x' ∧ y = y' := by
  have hw : 0 < w := by omega
  have e1 : (y*w+x) % w = x := by
    rw [add_comm, Int.add_mul_emod_self]; exact Int.emod_eq_of_lt hx hxw
  have e2 : (y'*w+x') % w = x' := by
    rw [add_comm, Int.add_mul_emod_self]; exact Int.emod_eq_of_lt hx' hxw'
  have hxx : x = x' := by rw [← e1, ← e2, h]
  refine ⟨hxx, ?_⟩
  subst hxx
  have : y * w = y' * w := by omega
  exact Int.eq_of_mul_eq_mul_right (by omega) this

theorem cells_inv_congr {α : Type} (w x0 x1 y0 y1 : Int) (R : Int → Int → α) (g0 : Int → α)
    (P Q : Int → Int → Prop) (s : Int → α)
    (hPQ : ∀ x y, in_rect x0 x1 y0 y1 x y → (P x y ↔ Q x y))
    (h : cells_inv w x0 x1 y0 y1 R g0 P s) : cells_inv w x0 x1 y0 y1 R g0 Q s := by
  refine ⟨fun x y hr hq => h.1 x y hr ((hPQ x y hr).mpr hq), fun j hj => h.2 j ?_⟩
  intro x y hr hp
  exact hj x y hr ((hPQ x y hr).mp hp)

theorem cells_inv_step {α : Type} (w x0 x1 y0 y1 : Int) (R : Int → Int → α) (g0 : Int → α)
    (f : (Int → α) → Int → Int → α)
    (hinj : ∀ x y x' y', in_rect x0 x1 y0 y1 x y → in_rect x0 x1 y0 y1 x' y' →
      y*w+x = y'*w+x' → x = x' ∧ y = y')
    (hf : ∀ s x y, in_rect x0 x1 y0 y1 x y →
      (∀ j, s j = g0 j ∨ ∃ x' y', in_rect x0 x1 y0 y1 x' y' ∧ j = y'*w+x' ∧ s j = R x' y') →
      s (y*w+x) = g0 (y*w+x) → f s x y = R x y)
    (P : Int → Int → Prop) (s : Int → α) (x y : Int) (hr : in_rect x0 x1 y0 y1 x y)
    (hP : ¬ P x y) (h : cells_inv w x0 x1 y0 y1 R g0 P s) :
    cells_inv w x0 x1 y0 y1 R g0 (fun x' y' => P x' y' ∨ (x' = x ∧ y' = y))
      (buf_set s (y*w+x) (f s x y)) := by
  have hcur : s (y*w+x) = g0 (y*w+x) := by
    apply h.2
    intro x' y' hr' hp' he
    obtain ⟨e1, e2⟩ := hinj x y x' y' hr hr' he
    subst e1; subst e2
    exact hP hp'
  have hbetween : ∀ j, s j = g0 j ∨
      ∃ x' y', in_rect x0 x1 y0 y1 x' y' ∧ j = y'*w+x' ∧ s j = R x' y' := by
    intro j
    by_cases hj : ∃ x' y', in_rect x0 x1 y0 y1 x' y' ∧ P x' y' ∧ j = y'*w+x'
    · obtain ⟨x', y', hr', hp', he⟩ := hj
      right
      exact ⟨x', y', hr', he, by rw [he]; exact h.1 x' y' hr' hp'⟩
    · left
      apply h.2
      intro x' y' hr' hp' he
      exact hj ⟨x', y', hr', hp', he⟩
  have hval : f s x y = R x y := hf s x y hr hbetween hcur
  constructor
  · intro x' y' hr' hp'
    by_cases he : y'*w+x' = y*w+x
    · obtain ⟨e1, e2⟩ := hinj x' y' x y hr' hr he
      subst e1; subst e2
      rw [buf_set_same, hval]
    · rw [buf_set_other _ _ _ _ he]
      rcases hp' with hp' | ⟨e1, e2⟩
      · exact h.1 x' y' hr' hp'
      · subst e1; subst e2; exact absurd rfl he
  · intro j hj
    have hne : j ≠ y*w+x := hj x y hr (Or.inr ⟨rfl, rfl⟩)
    rw [buf_set_other _ _ _ _ hne]
    apply h.2
    intro x' y' hr' hp'
    exact hj x' y' hr' (Or.inl hp')

/-- A row-major scan of a rectangle that stores one cell per pixel, the indices of the pixels
being distinct: every visited pixel ends with the value `R`, every other cell is untouched.
The stored value `f s x y` may read the buffer `s` in the middle of the scan. -/
theorem loop2_cells {α : Type} (w x0 x1 y0 y1 : Int) (R : Int → Int → α) (g0 : Int → α)
    (f : (Int → α) → Int → Int → α)
    (hinj : ∀ x y x' y', in_rect x0 x1 y0 y1 x y → in_rect x0 x1 y0 y1 x' y' →
      y*w+x = y'*w+x' → x = x' ∧ y = y')
    (hf : ∀ s x y, in_rect x0 x1 y0 y1 x y →
      (∀ j, s j = g0 j ∨ ∃ x' y', in_rect x0 x1 y0 y1 x' y' ∧ j = y'*w+x' ∧ s j = R x' y') →
      s (y*w+x) = g0 (y*w+x) → f s x y = R x y) :
    (∀ x y, in_rect x0 x1 y0 y1 x y →
      for_range y0 y1 (fun y s => for_range x0 x1
        (fun x s => buf_set s (y*w+x) (f s x y)) s) g0 (y*w+x) = R x y) ∧
    (∀ j, (∀ x y, in_rect x0 x1 y0 y1 x y → j ≠ y*w+x) →
      for_range y0 y1 (fun y s => for_range x0 x1
        (fun x s => buf_set s (y*w+x) (f s x y)) s) g0 j = g0 j) := by
  have key := for_range_inv y0 y1
    (fun y s => for_range x0 x1 (fun x s => buf_set s (y*w+x) (f s x y)) s)
    (fun yc s => cells_inv w x0 x1 y0 y1 R g0 (fun _ y' => y' < yc) s) g0
    ⟨fun x y hr hp => by unfold in_rect at hr; omega, fun j _ => rfl⟩
    (by
      intro y s hy0 hy1 hI
      have inner := for_range_inv x0 x1 (fun x s => buf_set s (y*w+x) (f s x y))
        (fun xc s => cells_inv w x0 x1 y0 y1 R g0
          (fun x' y' => y' < y ∨ (y' = y ∧ x' < xc)) s) s
        (cells_inv_congr w x0 x1 y0 y1 R g0 _ _ s
          (fun x' y' hr => by unfold in_rect at hr; constructor <;> intro h <;> omega) hI)
        (by
          intro x s hx0 hx1 hI'
          have st := cells_inv_step w x0 x1 y0 y1 R g0 f hinj hf _ s x y
            ⟨hy0, hy1, hx0, hx1⟩ (by omega) hI'
          exact cells_inv_congr w x0 x1 y0 y1 R g0 _ _ _
            (fun x' y' hr => by constructor <;> intro h <;> omega) st)
      exact cells_inv_congr w x0 x1 y0 y1 R g0 _ _ _
        (fun x' y' hr => by
          unfold in_rect at hr
          have := le_max_right x0 x1
          constructor <;> intro h <;> omega) inner)
  constructor
  · intro x y hr
    exact key.1 x y hr (by
      unfold in_rect at hr
      have := le_max_right y0 y1
      omega)
  · intro j hj
    exact key.2 j (fun x y hr _ => hj x y hr)

/-- A row-major scan of a rectangle that stores one cell per pixel, where the value stored in a
cell is determined by the cell: every visited cell ends with the value `R`, every other cell is
untouched, also when two pixels of the rectangle share a cell. -/
theorem loop2_cells_idx {α : Type} (w x0 x1 y0 y1 : Int) (R : Int → α) (g0 : Int → α)
    (f : (Int → α) → Int → Int → α)
    (hf : ∀ s x y, in_rect x0 x1 y0 y1 x y → (∀ j, s j = g0 j ∨ s j = R j) →
      f s x y = R (y*w+x)) :
    (∀ x y, in_rect x0 x1 y0 y1 x y →
      for_range y0 y1 (fun y s => for_range x0 x1
        (fun x s => buf_set s (y*w+x) (f s x y)) s) g0 (y*w+x) = R (y*w+x)) ∧
    (∀ j, (∀ x y, in_rect x0 x1 y0 y1 x y → j ≠ y*w+x) →
      for_range y0 y1 (fun y s => for_range x0 x1
        (fun x s => buf_set s (y*w+x) (f s x y)) s) g0 j = g0 j) := by
  have step : ∀ (P : Int → Int → Prop) (s : Int → α) (x y : Int), in_rect x0 x1 y0 y1 x y →
      cells_inv w x0 x1 y0 y1 (fun x y => R (y*w+x)) g0 P s →
      cells_inv w x0 x1 y0 y1 (fun x y => R (y*w+x)) g0 (fun x' y' => P x' y' ∨ (x' = x ∧ y' = y))
        (buf_set s (y*w+x) (f s x y)) := by
    intro P s x y hr h
    have hbetween : ∀ j, s j = g0 j ∨ s j = R j := by
      intro j
      by_cases hj : ∃ x' y', in_rect x0 x1 y0 y1 x' y' ∧ P x' y' ∧ j = y'*w+x'
      · obtain ⟨x', y', hr', hp', he⟩ := hj
        right
        rw [he]
        exact h.1 x' y' hr' hp'
      · left
        exact h.2 j (fun x' y' hr' hp' he => hj ⟨x', y', hr', hp', he⟩)
    have hval : f s x y = R (y*w+x) := hf s x y hr hbetween
    constructor
    · intro x' y' hr' hp'
      by_cases he : y'*w+x' = y*w+x
      · show buf_set s (y*w+x) (f s x y) (y'*w+x') = R (y'*w+x')
        rw [he, buf_set_same, hval]
      · rw [buf_set_other _ _ _ _ he]
        rcases hp' with hp' | ⟨e1, e2⟩
        · exact h.1 x' y' hr' hp'
        · subst e1; subst e2; exact absurd rfl he
    · intro j hj
      have hne : j ≠ y*w+x := hj x y hr (Or.inr ⟨rfl, rfl⟩)
      rw [buf_set_other _ _ _ _ hne]
      exact h.2 j (fun x' y' hr' hp' => hj x' y' hr' (Or.inl hp'))
  have key := for_range_inv y0 y1
    (fun y s => for_range x0 x1 (fun x s => buf_set s (y*w+x) (f s x y)) s)
    (fun yc s => cells_inv w x0 x1 y0 y1 (fun x y => R (y*w+x)) g0 (fun _ y' => y' < yc) s) g0
    ⟨fun x y hr hp => by unfold in_rect at hr; omega, fun j _ => rfl⟩
    (by
      intro y s hy0 hy1 hI
      have inner := for_range_inv x0 x1 (fun x s => buf_set s (y*w+x) (f s x y))
        (fun xc s => cells_inv w x0 x1 y0 y1 (fun x y => R (y*w+x)) g0
          (fun x' y' => y' < y ∨ (y' = y ∧ x' < xc)) s) s
        (cells_inv_congr w x0 x1 y0 y1 _ g0 _ _ s
          (fun x' y' hr => by unfold in_rect at hr; constructor <;> intro h <;> omega) hI)
        (by
          intro x s hx0 hx1 hI'
          have st := step _ s x y ⟨hy0, hy1, hx0, hx1⟩ hI'
          exact cells_inv_congr w x0 x1 y0 y1 _ g0 _ _ _
            (fun x' y' hr => by constructor <;> intro h <;> omega) st)
      exact cells_inv_congr w x0 x1 y0 y1 _ g0 _ _ _
        (fun x' y' hr => by
          unfold in_rect at hr
          have := le_max_right x0 x1
          constructor <;> intro h <;> omega) inner)
  constructor
  · intro x y hr
    exact key.1 x y hr (by
      unfold in_rect at hr
      have := le_max_right y0 y1
      omega)
  · intro j hj
    exact key.2 j (fun x y hr _ => hj x y hr)

/-! ## The stages, pixel by pixel -/

theorem roi_index_inj (w h : Int) (roi : rectangle_t) (hroi : roi_inside w h roi)
    (x y x' y' : Int) (hr : in_roi roi x y) (hr' : in_roi roi x' y')
    (he : y*w+x = y'*w+x') : x = x' ∧ y = y' := by
  unfold roi_inside at hroi
  unfold in_roi in_rect at hr hr'
  exact index_inj w x y x' y' (by omega) (by omega) (by omega) (by omega) he

theorem processed_in_roi (roi : rectangle_t) (x y : Int) (h : processed roi x y) :
    in_roi roi x y := by
  unfold processed in_rect at h
  unfold in_roi in_rect
  omega

theorem processed_index_inj (w h : Int) (roi : rectangle_t) (hroi : roi_inside w h roi)
    (x y x' y' : Int) (hr : processed roi x y) (hr' : processed roi x' y')
    (he : y*w+x = y'*w+x') : x = x' ∧ y = y' :=
  roi_index_inj w h roi hroi x y x' y' (processed_in_roi roi x y hr)
    (processed_in_roi roi x' y' hr') he

/-- The gradient stage, pixel by pixel. -/
theorem gradient_cells (E : externals) (data : Int → Nat) (w h : Int) (roi : rectangle_t)
    (gm : Int → gvec_t) (hroi : roi_inside w h roi) :
    (∀ x y, processed roi x y →
      gradient E data w roi gm (y*w+x) = gradient_entry E data w x y) ∧
    (∀ j, (∀ x y, processed roi x y → j ≠ y*w+x) → gradient E data w roi gm j = gm j) :=
  loop2_cells w (roi.x+1) (roi.x+roi.w-1) (roi.y+1) (roi.y+roi.h-1)
    (fun x y => gradient_entry E data w x y) gm (fun _ x y => gradient_entry E data w x y)
    (processed_index_inj w h roi hroi) (fun _ _ _ _ _ _ => rfl)

theorem hysteresis_entry_strong_iff (w low high : Int) (gm : Int → gvec_t) (x y : Int) :
    ((hysteresis_entry w low high gm x y).g : Int) ≥ high ↔ ((gm (y*w+x)).g : Int) ≥ high := by
  unfold hysteresis_entry
  simp only
  split_ifs with h1 h2 h3
  · rfl
  · constructor
    · intro h; simp at h; omega
    · intro h; exact absurd h h1
  · rfl
  · constructor
    · intro h; simp at h; omega
    · intro h; exact absurd h h1

theorem hysteresis_entry_t (w low high : Int) (gm : Int → gvec_t) (x y : Int) :
    (hysteresis_entry w low high gm x y).t = (gm (y*w+x)).t := by
  unfold hysteresis_entry
  simp only
  split_ifs <;> rfl

theorem hysteresis_entry_congr (w low high : Int) (s gm : Int → gvec_t) (x y : Int)
    (hcur : s (y*w+x) = gm (y*w+x))
    (hs : ∀ j, ((s j).g : Int) ≥ high ↔ ((gm j).g : Int) ≥ high) :
    hysteresis_entry w low high s x y = hysteresis_entry w low high gm x y := by
  have hn : strong_neighbour s w high x y ↔ strong_neighbour gm w high x y := by
    unfold strong_neighbour
    simp only [hs]
  unfold hysteresis_entry
  simp only [hcur, hn]

/-- The entry the hysteresis body computes depends on the cell of the pixel only. -/
theorem hysteresis_entry_index (w low high : Int) (s : Int → gvec_t) (x y : Int) :
    hysteresis_entry w low high s (y*w+x) 0 = hysteresis_entry w low high s x y := by
  have e0 : 0*w+(y*w+x) = y*w+x := by ring
  have e1 : (0-1)*w+((y*w+x)-1) = (y-1)*w+(x-1) := by ring
  have e2 : (0-1)*w+((y*w+x)+0) = (y-1)*w+(x+0) := by ring
  have e3 : (0-1)*w+((y*w+x)+1) = (y-1)*w+(x+1) := by ring
  have e4 : (0+0)*w+((y*w+x)-1) = (y+0)*w+(x-1) := by ring
  have e5 : (0+0)*w+((y*w+x)+1) = (y+0)*w+(x+1) := by ring
  have e6 : (0+1)*w+((y*w+x)-1) = (y+1)*w+(x-1) := by ring
  have e7 : (0+1)*w+((y*w+x)+0) = (y+1)*w+(x+0) := by ring
  have e8 : (0+1)*w+((y*w+x)+1) = (y+1)*w+(x+1) := by ring
  unfold hysteresis_entry strong_neighbour
  simp only [e0, e1, e2, e3, e4, e5, e6, e7, e8]

/-- Running the hysteresis body on a field of which some cells have already been rewritten
gives the entry computed from the field as it was before the stage, also at a cell that has
already been rewritten. -/
theorem hysteresis_entry_stable (w low high : Int) (s gm : Int → gvec_t) (x y : Int)
    (hb : ∀ j, s j = gm j ∨ s j = hysteresis_entry w low high gm j 0) :
    hysteresis_entry w low high s x y = hysteresis_entry w low high gm x y := by
  have hs : ∀ j, ((s j).g : Int) ≥ high ↔ ((gm j).g : Int) ≥ high := by
    intro j
    rcases hb j with e | e
    · rw [e]
    · rw [e]
      have := hysteresis_entry_strong_iff w low high gm j 0
      rwa [show (0:Int)*w+j = j by ring] at this
  rcases hb (y*w+x) with e | e
  · exact hysteresis_entry_congr w low high s gm x y e hs
  · rw [hysteresis_entry_index] at e
    have hn : strong_neighbour s w high x y ↔ strong_neighbour gm w high x y := by
      unfold strong_neighbour
      simp only [hs]
    have hg0 : (0 : Int) ≤ ((gm (y*w+x)).g : Int) := Int.natCast_nonneg _
    unfold hysteresis_entry at e ⊢
    simp only [e, hn]
    split_ifs <;> simp_all

/-- The in-place hysteresis stage, cell by cell: the cell of every processed pixel ends with the
entry the body computes from the field as it was before the stage. -/
theorem hysteresis_cells (w : Int) (roi : rectangle_t) (low high : Int) (gm : Int → gvec_t) :
    (∀ x y, processed roi x y →
      hysteresis w roi low high gm (y*w+x) = hysteresis_entry w low high gm x y) ∧
    (∀ j, (∀ x y, processed roi x y → j ≠ y*w+x) → hysteresis w roi low high gm j = gm j) := by
  have h := loop2_cells_idx w (roi.x+1) (roi.x+roi.w-1) (roi.y+1) (roi.y+roi.h-1)
    (fun j => hysteresis_entry w low high gm j 0) gm
    (fun s x y => hysteresis_entry w low high s x y)
    (fun s x y _ hb => by
      show hysteresis_entry w low high s x y = hysteresis_entry w low high gm (y*w+x) 0
      rw [hysteresis_entry_index]
      exact hysteresis_entry_stable w low high s gm x y hb)
  refine ⟨fun x y hp => ?_, h.2⟩
  have e : hysteresis w roi low high gm (y*w+x) = hysteresis_entry w low high gm (y*w+x) 0 :=
    h.1 x y hp
  rw [hysteresis_entry_index] at e
  exact e

theorem strong_neighbour_iff (gm : Int → gvec_t) (w high x y : Int) :
    strong_neighbour gm w high x y ↔
      ∃ p ∈ neighbours8 x y, ((gm (p.2*w+p.1)).g : Int) ≥ high := by
  unfold strong_neighbour neighbours8
  simp only [List.mem_cons, List.mem_singleton, exists_eq_or_imp, exists_eq_left, add_zero,
    List.not_mem_nil, false_and, exists_false, or_false]

theorem hysteresis_entry_eq_rule (w low high : Int) (gm : Int → gvec_t) (x y : Int) :
    hysteresis_entry w low high gm x y =
      { t := (gm (y*w+x)).t, g := snapshot_rule gm w low high x y } := by
  unfold hysteresis_entry snapshot_rule
  simp only [strong_neighbour_iff]
  split_ifs <;> rfl

/-- The snapshot-then-write pass, cell by cell. -/
theorem hysteresis_snapshot_cells (w : Int) (roi : rectangle_t) (low high : Int)
    (gm : Int → gvec_t) :
    (∀ x y, processed roi x y →
      hysteresis_snapshot w roi low high gm (y*w+x) = hysteresis_entry w low high gm x y) ∧
    (∀ j, (∀ x y, processed roi x y → j ≠ y*w+x) →
      hysteresis_snapshot w roi low high gm j = gm j) := by
  have h := loop2_cells_idx w (roi.x+1) (roi.x+roi.w-1) (roi.y+1) (roi.y+roi.h-1)
    (fun j => hysteresis_entry w low high gm j 0) gm
    (fun _ x y => ({ t := (gm (y*w+x)).t, g := snapshot_rule gm w low high x y } : gvec_t))
    (fun s x y _ _ => by
      show ({ t := (gm (y*w+x)).t, g := snapshot_rule gm w low high x y } : gvec_t) =
        hysteresis_entry w low high gm (y*w+x) 0
      rw [hysteresis_entry_index, hysteresis_entry_eq_rule])
  refine ⟨fun x y hp => ?_, h.2⟩
  have e : hysteresis_snapshot w roi low high gm (y*w+x) =
      hysteresis_entry w low high gm (y*w+x) 0 := h.1 x y hp
  rw [hysteresis_entry_index] at e
  exact e

theorem nms_select_isSome (w : Int) (t : Nat) (x y : Int) (ht : valid_class t) :
    (nms_select w t x y).isSome = true := by
  unfold nms_select
  rcases ht with h | h | h | h <;> subst h <;> simp

theorem nms_pixel_eq (w : Int) (roi : rectangle_t) (gm : Int → gvec_t) (data : Int → Nat)
    (x y : Int) (ht : ¬ nms_border roi x y → valid_class (gm (y*w+x)).t) :
    nms_pixel w roi gm data x y = some (buf_set data (y*w+x) (nms_out w roi gm x y)) := by
  unfold nms_pixel nms_out
  by_cases hb : nms_border roi x y
  · simp [hb]
  · simp only [hb, if_false]
    have hs := nms_select_isSome w (gm (y*w+x)).t x y (ht hb)
    cases hsel : nms_select w (gm (y*w+x)).t x y with
    | none => rw [hsel] at hs; simp at hs
    | some ab =>
      obtain ⟨a, b⟩ := ab
      simp only
      split_ifs <;> rfl

/-- When every pixel that is not within 2 of the ROI border has one of the four direction
classes, the last stage dereferences no `NULL` pointer and stores `nms_out` at every pixel. -/
theorem nms_eq_pure (w : Int) (roi : rectangle_t) (gm : Int → gvec_t) (data : Int → Nat)
    (ht : ∀ x y, in_roi roi x y → ¬ nms_border roi x y → valid_class (gm (y*w+x)).t) :
    nms w roi gm data = some (nms_pure w roi gm data) := by
  unfold nms nms_pure
  apply for_range_opt_some
  intro y d hy0 hy1
  apply for_range_opt_some
  intro x d' hx0 hx1
  exact nms_pixel_eq w roi gm d' x y (ht x y ⟨hy0, hy1, hx0, hx1⟩)

/-- The last stage, pixel by pixel. -/
theorem nms_pure_cells (w h : Int) (roi : rectangle_t) (gm : Int → gvec_t) (data : Int → Nat)
    (hroi : roi_inside w h roi) :
    (∀ x y, in_roi roi x y → nms_pure w roi gm data (y*w+x) = nms_out w roi gm x y) ∧
    (∀ j, (∀ x y, in_roi roi x y → j ≠ y*w+x) → nms_pure w roi gm data j = data j) :=
  loop2_cells w roi.x (roi.x+roi.w) roi.y (roi.y+roi.h)
    (fun x y => nms_out w roi gm x y) data (fun _ x y => nms_out w roi gm x y)
    (roi_index_inj w h roi hroi) (fun _ _ _ _ _ _ => rfl)

/-! ## Direction classes -/

theorem int_cast_range (q : ℚ) (h0 : 0 ≤ q) (h1 : q ≤ 180) :
    0 ≤ int_cast q ∧ int_cast q ≤ 180 := by
  unfold int_cast
  rw [if_pos h0]
  constructor
  · exact Int.floor_nonneg.mpr h0
  · have : (Int.floor q : ℚ) ≤ 180 := le_trans (Int.floor_le q) h1
    exact_mod_cast this

theorem quantize_valid (t : Int) (h1 : t ≤ 180) :
    valid_class (to_uint16 (quantize t)) := by
  unfold quantize
  split_ifs
  · left; rfl
  · right; left; rfl
  · right; right; left; rfl
  · right; right; right; rfl
  · left; rfl

theorem for_range_inv_const {σ : Type} (lo hi : Int) (body : Int → σ → σ) (Inv : σ → Prop)
    (s : σ) (h0 : Inv s) (hstep : ∀ i s, lo ≤ i → i < hi → Inv s → Inv (body i s)) :
    Inv (for_range lo hi body s) :=
  for_range_inv lo hi body (fun _ s => Inv s) s h0 hstep

theorem gradient_valid (E : externals) (data : Int → Nat) (w : Int) (roi : rectangle_t)
    (gm : Int → gvec_t) (hE : angle_in_range E) (h : ∀ j, valid_class (gm j).t) :
    ∀ j, valid_class (gradient E data w roi gm j).t := by
  unfold gradient
  apply for_range_inv_const _ _ _ (fun s : Int → gvec_t => ∀ j, valid_class (s j).t) gm h
  intro y s _ _ hs
  apply for_range_inv_const _ _ _ (fun s : Int → gvec_t => ∀ j, valid_class (s j).t) s hs
  intro x s' _ _ hs' j
  unfold gradient_pixel buf_set
  split_ifs
  · exact quantize_valid _ (hE _ _).2
  · exact hs' j

theorem hysteresis_valid (w : Int) (roi : rectangle_t) (low high : Int) (gm : Int → gvec_t)
    (h : ∀ j, valid_class (gm j).t) :
    ∀ j, valid_class (hysteresis w roi low high gm j).t := by
  unfold hysteresis
  apply for_range_inv_const _ _ _ (fun s : Int → gvec_t => ∀ j, valid_class (s j).t) gm h
  intro y s _ _ hs
  apply for_range_inv_const _ _ _ (fun s : Int → gvec_t => ∀ j, valid_class (s j).t) s hs
  intro x s' _ _ hs' j
  unfold hysteresis_pixel buf_set
  split_ifs
  · rw [hysteresis_entry_t]; exact hs' _
  · exact hs' j

theorem fb_alloc0_valid : ∀ j, valid_class (fb_alloc0 j).t := fun _ => Or.inl rfl

theorem field_valid (E : externals) (data : Int → Nat) (w : Int) (roi : rectangle_t)
    (low high : Int) (hE : angle_in_range E) :
    ∀ j, valid_class (hysteresis w roi low high (gradient E data w roi fb_alloc0) j).t :=
  hysteresis_valid w roi low high _ (gradient_valid E data w roi fb_alloc0 hE fb_alloc0_valid)

theorem canny_stages_eq_of_valid (E : externals) (data : Int → Nat) (w : Int)
    (roi : rectangle_t) (low high : Int)
    (hv : ∀ j, valid_class (gradient E data w roi fb_alloc0 j).t) :
    canny_stages E data w roi low high =
      some (nms_pure w roi (hysteresis w roi low high (gradient E data w roi fb_alloc0)) data) :=
  nms_eq_pure w roi _ data (fun _ _ _ _ => hysteresis_valid w roi low high _ hv _)

theorem canny_stages_eq (E : externals) (data : Int → Nat) (w : Int) (roi : rectangle_t)
    (low high : Int) (hE : angle_in_range E) :
    canny_stages E data w roi low high =
      some (nms_pure w roi (hysteresis w roi low high (gradient E data w roi fb_alloc0)) data) :=
  canny_stages_eq_of_valid E data w roi low high
    (gradient_valid E data w roi fb_alloc0 hE fb_alloc0_valid)

theorem imlib_edge_canny_eq_of_valid (E : externals) (src : image_t) (roi : rectangle_t)
    (low high : Int)
    (hv : ∀ j, valid_class (gradient E (E.imlib_morph src) src.w roi fb_alloc0 j).t) :
    imlib_edge_canny E src roi low high =
      some { src with data := nms_pure src.w roi (hysteresis src.w roi low high
        (gradient E (E.imlib_morph src) src.w roi fb_alloc0)) (E.imlib_morph src) } := by
  unfold imlib_edge_canny
  simp only [canny_stages_eq_of_valid E _ src.w roi low high hv, Option.map_some']

theorem imlib_edge_canny_eq (E : externals) (src : image_t) (roi : rectangle_t)
    (low high : Int) (hE : angle_in_range E) :
    imlib_edge_canny E src roi low high =
      some { src with data := nms_pure src.w roi (hysteresis src.w roi low high
        (gradient E (E.imlib_morph src) src.w roi fb_alloc0)) (E.imlib_morph src) } :=
  imlib_edge_canny_eq_of_valid E src roi low high
    (gradient_valid E _ src.w roi fb_alloc0 hE fb_alloc0_valid)

theorem example_angle_in_range : angle_in_range example_externals := by
  intro vy vx
  apply int_cast_range
  · exact abs_nonneg _
  · simp only [example_externals]
    apply abs_le.mpr
    split_ifs <;> constructor <;> norm_num

theorem example_field_valid : ∀ j, valid_class (example_field j).t := by
  intro j
  unfold example_field
  split_ifs <;> exact Or.inl rfl

/-! ## The claims -/

/-- C1: for every image, every ROI inside the image and every pair of thresholds,
`imlib_edge_canny` returns, and in the image it leaves every ROI pixel `(x, y)` with
`x < roi.x+2`, `x > roi.x+roi.w-3`, `y < roi.y+2` or `y > roi.y+roi.h-3` holds 0.  The angle
the external float operations compute is taken in `[0, 180]`. -/
theorem canny_border_zero (E : externals) (src : image_t) (roi : rectangle_t) (low high : Int)
    (hE : angle_in_range E) (hroi : roi_inside src.w src.h roi) :
    ∃ out, imlib_edge_canny E src roi low high = some out ∧ out.w = src.w ∧
      ∀ x y, in_roi roi x y →
        (x < roi.x+2 ∨ x > roi.x+roi.w-3 ∨ y < roi.y+2 ∨ y > roi.y+roi.h-3) →
        out.data (y*src.w+x) = 0 := by
  refine ⟨_, imlib_edge_canny_eq E src roi low high hE, rfl, ?_⟩
  intro x y hr hb
  have hcell := (nms_pure_cells src.w src.h roi (hysteresis src.w roi low high
    (gradient E (E.imlib_morph src) src.w roi fb_alloc0)) (E.imlib_morph src) hroi).1 x y hr
  simp only [hcell]
  unfold nms_out
  rw [if_pos]
  unfold nms_border
  omega

theorem canny_border_zero_witness :
    angle_in_range example_externals ∧ roi_inside example_image.w example_image.h example_roi ∧
    ∃ out, imlib_edge_canny example_externals example_image example_roi 20 100 = some out ∧
      out.w = example_image.w ∧
      ∀ x y, in_roi example_roi x y →
        (x < example_roi.x+2 ∨ x > example_roi.x+example_roi.w-3 ∨
          y < example_roi.y+2 ∨ y > example_roi.y+example_roi.h-3) →
        out.data (y*example_image.w+x) = 0 :=
  ⟨example_angle_in_range, by decide,
    canny_border_zero example_externals example_image example_roi 20 100
      example_angle_in_range (by decide)⟩

theorem spec_neighbours_select (w : Int) (t : Nat) (x y : Int) (ht : valid_class t) :
    ∃ a b, spec_neighbours t x y = some (a, b) ∧
      nms_select w t x y = some (a.2*w+a.1, b.2*w+b.1) := by
  unfold spec_neighbours nms_select
  rcases ht with h | h | h | h <;> subst h
  · exact ⟨(x-1, y), (x+1, y), by simp, by simp⟩
  · exact ⟨(x-1, y+1), (x+1, y-1), by simp, by simp⟩
  · exact ⟨(x, y+1), (x, y-1), by simp, by simp⟩
  · exact ⟨(x+1, y+1), (x-1, y-1), by simp, by simp⟩

/-- C2: for every ROI pixel that is not within 2 of the ROI border, the last stage stores 255
when the magnitude of the pixel in the field it is given (the field after hysteresis) is
strictly greater than the magnitudes of both neighbours its direction class selects
(0: `(x-1,y)`, `(x+1,y)`; 45: `(x-1,y+1)`, `(x+1,y-1)`; 90: `(x,y+1)`, `(x,y-1)`;
135: `(x+1,y+1)`, `(x-1,y-1)`) and 0 otherwise; it is never 255 when a selected neighbour has
an equal or greater magnitude. -/
theorem nms_strict_maximum (w h : Int) (roi : rectangle_t) (gm : Int → gvec_t)
    (data : Int → Nat) (hroi : roi_inside w h roi)
    (ht : ∀ x y, in_roi roi x y → ¬ nms_border roi x y → valid_class (gm (y*w+x)).t) :
    ∃ out, nms w roi gm data = some out ∧
      ∀ x y, in_roi roi x y →
        ¬ (x < roi.x+2 ∨ x > roi.x+roi.w-3 ∨ y < roi.y+2 ∨ y > roi.y+roi.h-3) →
        ∃ a b, spec_neighbours (gm (y*w+x)).t x y = some (a, b) ∧
          out (y*w+x) =
            (if (gm (y*w+x)).g > (gm (a.2*w+a.1)).g ∧ (gm (y*w+x)).g > (gm (b.2*w+b.1)).g
              then 255 else 0) ∧
          ((gm (y*w+x)).g ≤ (gm (a.2*w+a.1)).g ∨ (gm (y*w+x)).g ≤ (gm (b.2*w+b.1)).g →
            out (y*w+x) ≠ 255) := by
  refine ⟨_, nms_eq_pure w roi gm data ht, ?_⟩
  intro x y hr hb
  have hnb : ¬ nms_border roi x y := by unfold nms_border; omega
  obtain ⟨a, b, hab, hsel⟩ := spec_neighbours_select w (gm (y*w+x)).t x y (ht x y hr hnb)
  have hcell := (nms_pure_cells w h roi gm data hroi).1 x y hr
  have hout : nms_pure w roi gm data (y*w+x) =
      (if (gm (y*w+x)).g > (gm (a.2*w+a.1)).g ∧ (gm (y*w+x)).g > (gm (b.2*w+b.1)).g
        then 255 else 0) := by
    rw [hcell]
    unfold nms_out
    rw [if_neg hnb, hsel]
    simp only
    split_ifs <;> rfl
  refine ⟨a, b, hab, hout, ?_⟩
  intro hle
  rw [hout, if_neg (by omega)]
  decide

theorem nms_strict_maximum_witness :
    roi_inside 6 6 example_roi ∧
    ∃ out, nms 6 example_roi example_field example_image.data = some out ∧
      ∀ x y, in_roi example_roi x y →
        ¬ (x < example_roi.x+2 ∨ x > example_roi.x+example_roi.w-3 ∨
          y < example_roi.y+2 ∨ y > example_roi.y+example_roi.h-3) →
        ∃ a b, spec_neighbours (example_field (y*6+x)).t x y = some (a, b) ∧
          out (y*6+x) =
            (if (example_field (y*6+x)).g > (example_field (a.2*6+a.1)).g ∧
                (example_field (y*6+x)).g > (example_field (b.2*6+b.1)).g
              then 255 else 0) ∧
          ((example_field (y*6+x)).g ≤ (example_field (a.2*6+a.1)).g ∨
              (example_field (y*6+x)).g ≤ (example_field (b.2*6+b.1)).g →
            out (y*6+x) ≠ 255) :=
  ⟨by decide, nms_strict_maximum 6 6 example_roi example_field example_image.data (by decide)
    (fun x y _ _ => example_field_valid (y*6+x))⟩

/-- C3: for every gradient field and all thresholds (in particular `low <= high`), the
in-place hysteresis loop leaves every processed pixel (ROI minus a 1-pixel border) with the
magnitude the three-case rule assigns when all reads are taken from the field as it was before
the pass, and the in-place pass and the snapshot-then-write pass compute the same field. -/
theorem hysteresis_eq_snapshot (w : Int) (roi : rectangle_t) (low high : Int)
    (gm : Int → gvec_t) :
    (∀ x y, processed roi x y →
      (hysteresis w roi low high gm (y*w+x)).g = snapshot_rule gm w low high x y) ∧
    hysteresis w roi low high gm = hysteresis_snapshot w roi low high gm := by
  have hc := hysteresis_cells w roi low high gm
  have hs := hysteresis_snapshot_cells w roi low high gm
  constructor
  · intro x y hp
    rw [hc.1 x y hp, hysteresis_entry_eq_rule]
  · funext j
    by_cases hj : ∃ x y, processed roi x y ∧ j = y*w+x
    · obtain ⟨x, y, hp, e⟩ := hj
      rw [e, hc.1 x y hp, hs.1 x y hp]
    · have hj' : ∀ x y, processed roi x y → j ≠ y*w+x := fun x y hp e => hj ⟨x, y, hp, e⟩
      rw [hc.2 j hj', hs.2 j hj']

/-- C4: for an integer angle `t` in `[0, 180]` the quantiser gives 0 if `t < 22`, 45 if
`22 <= t < 67`, 90 if `67 <= t < 112`, 135 if `112 <= t < 160` and 0 if `160 <= t <= 180`;
the angles 21.9, 22, 66.9, 67, 111.9, 112, 159.9, 160, truncated by the conversion `(int)`,
get the classes 0, 45, 45, 90, 90, 135, 135, 0. -/
theorem quantize_boundaries (t : Int) (_h0 : 0 ≤ t) (h1 : t ≤ 180) :
    ((t < 22 → quantize t = 0) ∧ (22 ≤ t → t < 67 → quantize t = 45) ∧
      (67 ≤ t → t < 112 → quantize t = 90) ∧ (112 ≤ t → t < 160 → quantize t = 135) ∧
      (160 ≤ t → quantize t = 0)) ∧
    [quantize (int_cast 21.9), quantize (int_cast 22), quantize (int_cast 66.9),
      quantize (int_cast 67), quantize (int_cast 111.9), quantize (int_cast 112),
      quantize (int_cast 159.9), quantize (int_cast 160)] = [0, 45, 45, 90, 90, 135, 135, 0] := by
  refine ⟨⟨?_, ?_, ?_, ?_, ?_⟩, ?_⟩
  · intro h; unfold quantize; rw [if_pos h]
  · intro h h'; unfold quantize; rw [if_neg (by omega), if_pos h']
  · intro h h'; unfold quantize; rw [if_neg (by omega), if_neg (by omega), if_pos h']
  · intro h h'; unfold quantize
    rw [if_neg (by omega), if_neg (by omega), if_neg (by omega), if_pos h']
  · intro h; unfold quantize
    rw [if_neg (by omega), if_neg (by omega), if_neg (by omega), if_neg (by omega), if_pos h1]
  · have e1 : int_cast 21.9 = 21 := by norm_num [int_cast, Int.floor_eq_iff]
    have e2 : int_cast 22 = 22 := by norm_num [int_cast]
    have e3 : int_cast 66.9 = 66 := by norm_num [int_cast, Int.floor_eq_iff]
    have e4 : int_cast 67 = 67 := by norm_num [int_cast]
    have e5 : int_cast 111.9 = 111 := by norm_num [int_cast, Int.floor_eq_iff]
    have e6 : int_cast 112 = 112 := by norm_num [int_cast]
    have e7 : int_cast 159.9 = 159 := by norm_num [int_cast, Int.floor_eq_iff]
    have e8 : int_cast 160 = 160 := by norm_num [int_cast]
    rw [e1, e2, e3, e4, e5, e6, e7, e8]
    decide

theorem quantize_boundaries_witness :
    (0 : Int) ≤ 67 ∧ (67 : Int) ≤ 180 ∧
    ((((67 : Int) < 22 → quantize 67 = 0) ∧ ((22 : Int) ≤ 67 → (67 : Int) < 67 → quantize 67 = 45) ∧
      ((67 : Int) ≤ 67 → (67 : Int) < 112 → quantize 67 = 90) ∧
      ((112 : Int) ≤ 67 → (67 : Int) < 160 → quantize 67 = 135) ∧
      ((160 : Int) ≤ 67 → quantize 67 = 0)) ∧
    [quantize (int_cast 21.9), quantize (int_cast 22), quantize (int_cast 66.9),
      quantize (int_cast 67), quantize (int_cast 111.9), quantize (int_cast 112),
      quantize (int_cast 159.9), quantize (int_cast 160)] = [0, 45, 45, 90, 90, 135, 135, 0]) :=
  ⟨by decide, by decide, quantize_boundaries 67 (by decide) (by decide)⟩

theorem sobel_uniform (data : Int → Nat) (c : Nat) (w x y : Int)
    (h : ∀ dx dy : Int, -1 ≤ dx → dx ≤ 1 → -1 ≤ dy → dy ≤ 1 → data ((y+dy)*w+(x+dx)) = c) :
    sobel_vx data w x y = 0 ∧ sobel_vy data w x y = 0 := by
  have a1 : data ((y-1)*w+x-1) = c := by
    rw [show (y-1)*w+x-1 = (y+(-1))*w+(x+(-1)) by ring]; exact h _ _ (by omega) (by omega) (by omega) (by omega)
  have a2 : data ((y-1)*w+x+0) = c := by
    rw [show (y-1)*w+x+0 = (y+(-1))*w+(x+0) by ring]; exact h _ _ (by omega) (by omega) (by omega) (by omega)
  have a3 : data ((y-1)*w+x+1) = c := by
    rw [show (y-1)*w+x+1 = (y+(-1))*w+(x+1) by ring]; exact h _ _ (by omega) (by omega) (by omega) (by omega)
  have a4 : data ((y+0)*w+x-1) = c := by
    rw [show (y+0)*w+x-1 = (y+0)*w+(x+(-1)) by ring]; exact h _ _ (by omega) (by omega) (by omega) (by omega)
  have a5 : data ((y+0)*w+x+1) = c := by
    rw [show (y+0)*w+x+1 = (y+0)*w+(x+1) by ring]; exact h _ _ (by omega) (by omega) (by omega) (by omega)
  have a6 : data ((y+1)*w+x-1) = c := by
    rw [show (y+1)*w+x-1 = (y+1)*w+(x+(-1)) by ring]; exact h _ _ (by omega) (by omega) (by omega) (by omega)
  have a7 : data ((y+1)*w+x+0) = c := by
    rw [show (y+1)*w+x+0 = (y+1)*w+(x+0) by ring]; exact h _ _ (by omega) (by omega) (by omega) (by omega)
  have a8 : data ((y+1)*w+x+1) = c := by
    rw [show (y+1)*w+x+1 = (y+1)*w+(x+1) by ring]; exact h _ _ (by omega) (by omega) (by omega) (by omega)
  unfold sobel_vx sobel_vy
  rw [a1, a2, a3, a4, a5, a6, a7, a8]
  constructor <;> ring

theorem sobel_uniform_image (data : Int → Nat) (c : Nat) (w h : Int) (roi : rectangle_t)
    (hroi : roi_inside w h roi)
    (hu : ∀ x y, 0 ≤ x → x < w → 0 ≤ y → y < h → data (y*w+x) = c)
    (x y : Int) (hp : processed roi x y) :
    sobel_vx data w x y = 0 ∧ sobel_vy data w x y = 0 := by
  unfold roi_inside at hroi
  unfold processed in_rect at hp
  apply sobel_uniform data c w x y
  intro dx dy h1 h2 h3 h4
  exact hu _ _ (by omega) (by omega) (by omega) (by omega)

theorem hysteresis_entry_g (w low high : Int) (gm : Int → gvec_t) (x y : Int) :
    (hysteresis_entry w low high gm x y).g = (gm (y*w+x)).g ∨
      (hysteresis_entry w low high gm x y).g = 0 := by
  unfold hysteresis_entry
  simp only
  split_ifs
  · left; rfl
  · right; rfl
  · left; rfl
  · right; rfl

theorem hysteresis_g_zero (w : Int) (roi : rectangle_t) (low high : Int) (gm : Int → gvec_t)
    (h : ∀ j, (gm j).g = 0) : ∀ j, (hysteresis w roi low high gm j).g = 0 := by
  unfold hysteresis
  apply for_range_inv_const _ _ _ (fun s : Int → gvec_t => ∀ j, (s j).g = 0) gm h
  intro y s _ _ hs
  apply for_range_inv_const _ _ _ (fun s : Int → gvec_t => ∀ j, (s j).g = 0) s hs
  intro x s' _ _ hs' j
  unfold hysteresis_pixel buf_set
  split_ifs
  · rcases hysteresis_entry_g w low high s' x y with e | e
    · rw [e]; exact hs' _
    · exact e
  · exact hs' j

theorem nms_out_of_zero (w : Int) (roi : rectangle_t) (gm : Int → gvec_t) (x y : Int)
    (h : (gm (y*w+x)).g = 0) : nms_out w roi gm x y = 0 := by
  unfold nms_out
  split_ifs
  · rfl
  · cases nms_select w (gm (y*w+x)).t x y with
    | none => rfl
    | some ab =>
      obtain ⟨a, b⟩ := ab
      simp only [h]
      rw [if_pos (by omega)]

theorem nms_out_binary (w : Int) (roi : rectangle_t) (gm : Int → gvec_t) (x y : Int) :
    nms_out w roi gm x y = 0 ∨ nms_out w roi gm x y = 255 := by
  unfold nms_out
  split_ifs
  · left; rfl
  · cases nms_select w (gm (y*w+x)).t x y with
    | none => left; rfl
    | some ab =>
      obtain ⟨a, b⟩ := ab
      by_cases hc : (gm (y*w+x)).g > (gm a).g ∧ (gm (y*w+x)).g > (gm b).g
      · right; exact if_neg (not_not.mpr hc)
      · left; exact if_pos hc

theorem gradient_entry_of_uniform (E : externals) (data : Int → Nat) (c : Nat) (w h : Int)
    (roi : rectangle_t) (hroi : roi_inside w h roi)
    (hu : ∀ x y, 0 ≤ x → x < w → 0 ≤ y → y < h → data (y*w+x) = c)
    (x y : Int) (hp : processed roi x y) :
    gradient_entry E data w x y =
      { t := to_uint16 (quantize (int_cast (E.fast_fabsf (E.atan2f_deg 0 0)))),
        g := to_uint16 (int_cast (E.fast_sqrtf 0)) } := by
  obtain ⟨hx, hy⟩ := sobel_uniform_image data c w h roi hroi hu x y hp
  unfold gradient_entry
  simp only [hx, hy, mul_zero, add_zero]

theorem gradient_g_zero_of_uniform (E : externals) (data : Int → Nat) (c : Nat) (w h : Int)
    (roi : rectangle_t) (hsqrt : E.fast_sqrtf 0 = 0) (hroi : roi_inside w h roi)
    (hu : ∀ x y, 0 ≤ x → x < w → 0 ≤ y → y < h → data (y*w+x) = c) :
    ∀ j, (gradient E data w roi fb_alloc0 j).g = 0 := by
  intro j
  have hc := gradient_cells E data w h roi fb_alloc0 hroi
  by_cases hj : ∃ x y, processed roi x y ∧ j = y*w+x
  · obtain ⟨x, y, hp, e⟩ := hj
    rw [e, hc.1 x y hp, gradient_entry_of_uniform E data c w h roi hroi hu x y hp, hsqrt]
    have : int_cast 0 = 0 := by simp [int_cast]
    simp only [this]
    rfl
  · rw [hc.2 j (fun x y hp e => hj ⟨x, y, hp, e⟩)]
    rfl

theorem gradient_valid_of_uniform (E : externals) (data : Int → Nat) (c : Nat) (w h : Int)
    (roi : rectangle_t) (hangle : int_cast (E.fast_fabsf (E.atan2f_deg 0 0)) ≤ 180)
    (hroi : roi_inside w h roi)
    (hu : ∀ x y, 0 ≤ x → x < w → 0 ≤ y → y < h → data (y*w+x) = c) :
    ∀ j, valid_class (gradient E data w roi fb_alloc0 j).t := by
  intro j
  have hc := gradient_cells E data w h roi fb_alloc0 hroi
  by_cases hj : ∃ x y, processed roi x y ∧ j = y*w+x
  · obtain ⟨x, y, hp, e⟩ := hj
    rw [e, hc.1 x y hp, gradient_entry_of_uniform E data c w h roi hroi hu x y hp]
    exact quantize_valid _ hangle
  · rw [hc.2 j (fun x y hp e => hj ⟨x, y, hp, e⟩)]
    exact fb_alloc0_valid j

/-- C5: for every image whose smoothed samples are all equal to one value `c`, every ROI
inside the image and every threshold pair (of any sign), taking `sqrt(0) = 0` and the angle of
the zero vector at most 180: every Sobel response is 0, every magnitude of the gradient field
is 0, and `imlib_edge_canny` returns and leaves every ROI pixel equal to 0. -/
theorem uniform_image_all_zero (E : externals) (src : image_t) (roi : rectangle_t)
    (low high : Int) (c : Nat) (hangle : int_cast (E.fast_fabsf (E.atan2f_deg 0 0)) ≤ 180)
    (hsqrt : E.fast_sqrtf 0 = 0) (hroi : roi_inside src.w src.h roi)
    (hu : ∀ x y, 0 ≤ x → x < src.w → 0 ≤ y → y < src.h → E.imlib_morph src (y*src.w+x) = c) :
    (∀ x y, processed roi x y →
      sobel_vx (E.imlib_morph src) src.w x y = 0 ∧ sobel_vy (E.imlib_morph src) src.w x y = 0) ∧
    (∀ j, (gradient E (E.imlib_morph src) src.w roi fb_alloc0 j).g = 0) ∧
    ∃ out, imlib_edge_canny E src roi low high = some out ∧
      ∀ x y, in_roi roi x y → out.data (y*src.w+x) = 0 := by
  have hg := gradient_g_zero_of_uniform E (E.imlib_morph src) c src.w src.h roi hsqrt hroi hu
  have hv := gradient_valid_of_uniform E (E.imlib_morph src) c src.w src.h roi hangle hroi hu
  refine ⟨sobel_uniform_image (E.imlib_morph src) c src.w src.h roi hroi hu, hg, ?_⟩
  refine ⟨_, imlib_edge_canny_eq_of_valid E src roi low high hv, ?_⟩
  intro x y hr
  have hcell := (nms_pure_cells src.w src.h roi (hysteresis src.w roi low high
    (gradient E (E.imlib_morph src) src.w roi fb_alloc0)) (E.imlib_morph src) hroi).1 x y hr
  simp only [hcell]
  exact nms_out_of_zero _ _ _ _ _ (hysteresis_g_zero src.w roi low high _ hg _)

theorem uniform_image_all_zero_witness :
    int_cast (example_externals.fast_fabsf (example_externals.atan2f_deg 0 0)) ≤ 180 ∧
    example_externals.fast_sqrtf 0 = 0 ∧
    roi_inside uniform_image.w uniform_image.h example_roi ∧
    (∀ x y, 0 ≤ x → x < uniform_image.w → 0 ≤ y → y < uniform_image.h →
      example_externals.imlib_morph uniform_image (y*uniform_image.w+x) = 77) ∧
    ((∀ x y, processed example_roi x y →
      sobel_vx (example_externals.imlib_morph uniform_image) uniform_image.w x y = 0 ∧
        sobel_vy (example_externals.imlib_morph uniform_image) uniform_image.w x y = 0) ∧
    (∀ j, (gradient example_externals (example_externals.imlib_morph uniform_image)
      uniform_image.w example_roi fb_alloc0 j).g = 0) ∧
    ∃ out, imlib_edge_canny example_externals uniform_image example_roi (-5) 0 = some out ∧
      ∀ x y, in_roi example_roi x y → out.data (y*uniform_image.w+x) = 0) :=
  ⟨(example_angle_in_range 0 0).2, by simp [example_externals], by decide,
    fun _ _ _ _ _ _ => rfl,
    uniform_image_all_zero example_externals uniform_image example_roi (-5) 0 77
      (example_angle_in_range 0 0).2 (by simp [example_externals]) (by decide)
      (fun _ _ _ _ _ _ => rfl)⟩

theorem strong_neighbour_mono (gm : Int → gvec_t) (w high high' x y : Int) (hh : high ≤ high')
    (h : strong_neighbour gm w high' x y) : strong_neighbour gm w high x y := by
  unfold strong_neighbour at h ⊢
  omega

theorem hysteresis_entry_mono (w low high low' high' : Int) (gm : Int → gvec_t) (x y : Int)
    (hl : low ≤ low') (hh : high ≤ high')
    (h0 : (hysteresis_entry w low high gm x y).g = 0) :
    (hysteresis_entry w low' high' gm x y).g = 0 := by
  have hsn := strong_neighbour_mono gm w high high' x y hh
  unfold hysteresis_entry at h0 ⊢
  simp only at h0 ⊢
  split_ifs at h0 ⊢ <;> first | rfl | exact h0 | omega | (exfalso; exact ‹¬ strong_neighbour gm w high x y› (hsn ‹_›))

/-- C6: for a fixed gradient field and thresholds with `low <= low'` and `high <= high'`,
every entry whose magnitude is 0 after the hysteresis stage under `(low, high)` also has
magnitude 0 after it under `(low', high')`. -/
theorem hysteresis_monotone (w : Int) (roi : rectangle_t) (gm : Int → gvec_t)
    (low high low' high' : Int) (hl : low ≤ low')
    (hh : high ≤ high') (j : Int) (h0 : (hysteresis w roi low high gm j).g = 0) :
    (hysteresis w roi low' high' gm j).g = 0 := by
  have hc := hysteresis_cells w roi low high gm
  have hc' := hysteresis_cells w roi low' high' gm
  by_cases hj : ∃ x y, processed roi x y ∧ j = y*w+x
  · obtain ⟨x, y, hp, e⟩ := hj
    rw [e, hc.1 x y hp] at h0
    rw [e, hc'.1 x y hp]
    exact hysteresis_entry_mono w low high low' high' gm x y hl hh h0
  · have hj' : ∀ x y, processed roi x y → j ≠ y*w+x := fun x y hp e => hj ⟨x, y, hp, e⟩
    rw [hc.2 j hj'] at h0
    rw [hc'.2 j hj']
    exact h0

theorem hysteresis_monotone_witness :
    (20 : Int) ≤ 60 ∧ (130 : Int) ≤ 150 ∧
    (hysteresis 6 example_roi 20 130 example_field 14).g = 0 ∧
    (hysteresis 6 example_roi 60 150 example_field 14).g = 0 :=
  ⟨by decide, by decide, by decide,
    hysteresis_monotone 6 example_roi example_field 20 130 60 150 (by decide)
      (by decide) 14 (by decide)⟩

/-- C7: for every image, ROI inside the image and thresholds, `imlib_edge_canny` returns and
every ROI pixel of the image it leaves holds 0 or 255.  The angle the external float operations
compute is taken in `[0, 180]`. -/
theorem canny_binary (E : externals) (src : image_t) (roi : rectangle_t) (low high : Int)
    (hE : angle_in_range E) (hroi : roi_inside src.w src.h roi) :
    ∃ out, imlib_edge_canny E src roi low high = some out ∧
      ∀ x y, in_roi roi x y → out.data (y*src.w+x) = 0 ∨ out.data (y*src.w+x) = 255 := by
  refine ⟨_, imlib_edge_canny_eq E src roi low high hE, ?_⟩
  intro x y hr
  have hcell := (nms_pure_cells src.w src.h roi (hysteresis src.w roi low high
    (gradient E (E.imlib_morph src) src.w roi fb_alloc0)) (E.imlib_morph src) hroi).1 x y hr
  simp only [hcell]
  exact nms_out_binary _ _ _ _ _

theorem canny_binary_witness :
    angle_in_range example_externals ∧ roi_inside example_image.w example_image.h example_roi ∧
    ∃ out, imlib_edge_canny example_externals example_image example_roi 20 100 = some out ∧
      ∀ x y, in_roi example_roi x y →
        out.data (y*example_image.w+x) = 0 ∨ out.data (y*example_image.w+x) = 255 :=
  ⟨example_angle_in_range, by decide,
    canny_binary example_externals example_image example_roi 20 100
      example_angle_in_range (by decide)⟩

/-- C9: provided every computed angle lies in `[0, 180]`, every entry of the gradient field,
inside or outside the ROI, has a direction class in `0, 45, 90, 135` after the gradient stage
and after the hysteresis stage; so the `switch` of the last stage selects a neighbour pair at
every pixel (`va`, `vb` are never left `NULL`) and the last stage returns. -/
theorem direction_class_invariant (E : externals) (data : Int → Nat) (w : Int)
    (roi : rectangle_t) (low high : Int) (hE : angle_in_range E) :
    (∀ j, valid_class (gradient E data w roi fb_alloc0 j).t) ∧
    (∀ j, valid_class (hysteresis w roi low high (gradient E data w roi fb_alloc0) j).t) ∧
    (∀ x y, (nms_select w
      (hysteresis w roi low high (gradient E data w roi fb_alloc0) (y*w+x)).t x y).isSome = true) ∧
    (canny_stages E data w roi low high).isSome = true := by
  refine ⟨gradient_valid E data w roi fb_alloc0 hE fb_alloc0_valid,
    field_valid E data w roi low high hE, ?_, ?_⟩
  · intro x y
    exact nms_select_isSome w _ x y (field_valid E data w roi low high hE _)
  · rw [canny_stages_eq E data w roi low high hE]
    rfl

theorem direction_class_invariant_witness :
    angle_in_range example_externals ∧
    ((∀ j, valid_class (gradient example_externals example_image.data 6 example_roi
      fb_alloc0 j).t) ∧
    (∀ j, valid_class (hysteresis 6 example_roi 20 100
      (gradient example_externals example_image.data 6 example_roi fb_alloc0) j).t) ∧
    (∀ x y, (nms_select 6 (hysteresis 6 example_roi 20 100
      (gradient example_externals example_image.data 6 example_roi fb_alloc0)
        (y*6+x)).t x y).isSome = true) ∧
    (canny_stages example_externals example_image.data 6 example_roi 20 100).isSome = true) :=
  ⟨example_angle_in_range,
    direction_class_invariant example_externals example_image.data 6 example_roi 20 100
      example_angle_in_range⟩

theorem not_processed_index (w h : Int) (roi : rectangle_t) (hroi : roi_inside w h roi)
    (x y : Int) (hx0 : 0 ≤ x) (hxw : x < w) (hn : ¬ processed roi x y) :
    ∀ x' y', processed roi x' y' → y*w+x ≠ y'*w+x' := by
  intro x' y' hp he
  have hp' := hp
  unfold roi_inside at hroi
  unfold processed in_rect at hp'
  obtain ⟨e1, e2⟩ := index_inj w x y x' y' hx0 hxw (by omega) (by omega) he
  subst e1; subst e2
  exact hn hp

/-- C10: the gradient field is zero-initialised, and for an ROI inside the image the gradient
and hysteresis stages leave direction 0 and magnitude 0 in every entry at a pixel of the image
that lies outside the ROI or on the outermost 1-pixel ring of the ROI: they write only at
pixels at least 1 inside the ROI border. -/
theorem gradient_field_frame (E : externals) (data : Int → Nat) (w h : Int)
    (roi : rectangle_t) (low high : Int) (hroi : roi_inside w h roi) :
    (∀ j, fb_alloc0 j = { t := 0, g := 0 }) ∧
    (∀ x y, 0 ≤ x → x < w → 0 ≤ y → y < h → ¬ processed roi x y →
      gradient E data w roi fb_alloc0 (y*w+x) = { t := 0, g := 0 } ∧
      hysteresis w roi low high (gradient E data w roi fb_alloc0) (y*w+x) = { t := 0, g := 0 }) ∧
    (∀ j, (∀ x y, processed roi x y → j ≠ y*w+x) →
      hysteresis w roi low high (gradient E data w roi fb_alloc0) j = { t := 0, g := 0 }) := by
  have hg := (gradient_cells E data w h roi fb_alloc0 hroi).2
  have hh := (hysteresis_cells w roi low high (gradient E data w roi fb_alloc0)).2
  refine ⟨fun _ => rfl, ?_, ?_⟩
  · intro x y hx0 hxw _ _ hn
    have hidx := not_processed_index w h roi hroi x y hx0 hxw hn
    refine ⟨?_, ?_⟩
    · rw [hg _ hidx]; rfl
    · rw [hh _ hidx, hg _ hidx]; rfl
  · intro j hj
    rw [hh j hj, hg j hj]; rfl

theorem gradient_field_frame_witness :
    roi_inside 6 6 example_roi ∧
    ((∀ j, fb_alloc0 j = { t := 0, g := 0 }) ∧
    (∀ x y, 0 ≤ x → x < 6 → 0 ≤ y → y < 6 → ¬ processed example_roi x y →
      gradient example_externals example_image.data 6 example_roi fb_alloc0 (y*6+x) =
        { t := 0, g := 0 } ∧
      hysteresis 6 example_roi 20 100
        (gradient example_externals example_image.data 6 example_roi fb_alloc0) (y*6+x) =
        { t := 0, g := 0 }) ∧
    (∀ j, (∀ x y, processed example_roi x y → j ≠ y*6+x) →
      hysteresis 6 example_roi 20 100
        (gradient example_externals example_image.data 6 example_roi fb_alloc0) j =
        { t := 0, g := 0 })) :=
  ⟨by decide,
    gradient_field_frame example_externals example_image.data 6 6 example_roi 20 100
      (by decide)⟩

/-! ## The step scenario: smoothing, gradient and suppression of a column profile -/

theorem morph_acc_gauss (pix : Int → Int → Nat) (x y : Int) :
    morph_acc 2 kernel_gauss_55 pix x y =
      (2 * (pix (x-2) (y-2) : Int) + 4 * pix (x-1) (y-2) + 5 * pix x (y-2)
        + 4 * pix (x+1) (y-2) + 2 * pix (x+2) (y-2))
      + (4 * (pix (x-2) (y-1) : Int) + 9 * pix (x-1) (y-1) + 12 * pix x (y-1)
        + 9 * pix (x+1) (y-1) + 4 * pix (x+2) (y-1))
      + (5 * (pix (x-2) y : Int) + 12 * pix (x-1) y + 15 * pix x y
        + 12 * pix (x+1) y + 5 * pix (x+2) y)
      + (4 * (pix (x-2) (y+1) : Int) + 9 * pix (x-1) (y+1) + 12 * pix x (y+1)
        + 9 * pix (x+1) (y+1) + 4 * pix (x+2) (y+1))
      + (2 * (pix (x-2) (y+2) : Int) + 4 * pix (x-1) (y+2) + 5 * pix x (y+2)
        + 4 * pix (x+1) (y+2) + 2 * pix (x+2) (y+2)) := by
  simp [morph_acc, kernel_gauss_55, List.range_succ]
  ring_nf

/-- Smoothing a window whose columns are those of the step image gives the column profile
0, 27, 88, 166, 227, 255 around column 10. -/
theorem gauss_step (pix : Int → Int → Nat) (x y : Int) (hx0 : 0 ≤ x) (hx1 : x ≤ 19)
    (hp : ∀ x' y' : Int, x-2 ≤ x' → x' ≤ x+2 → y-2 ≤ y' → y' ≤ y+2 → pix x' y' = step_col x') :
    gauss_sample pix x y = step_profile x := by
  unfold gauss_sample
  rw [morph_acc_gauss]
  rw [hp (x-2) (y-2) (by omega) (by omega) (by omega) (by omega),
    hp (x-1) (y-2) (by omega) (by omega) (by omega) (by omega),
    hp x (y-2) (by omega) (by omega) (by omega) (by omega),
    hp (x+1) (y-2) (by omega) (by omega) (by omega) (by omega),
    hp (x+2) (y-2) (by omega) (by omega) (by omega) (by omega),
    hp (x-2) (y-1) (by omega) (by omega) (by omega) (by omega),
    hp (x-1) (y-1) (by omega) (by omega) (by omega) (by omega),
    hp x (y-1) (by omega) (by omega) (by omega) (by omega),
    hp (x+1) (y-1) (by omega) (by omega) (by omega) (by omega),
    hp (x+2) (y-1) (by omega) (by omega) (by omega) (by omega),
    hp (x-2) y (by omega) (by omega) (by omega) (by omega),
    hp (x-1) y (by omega) (by omega) (by omega) (by omega),
    hp x y (by omega) (by omega) (by omega) (by omega),
    hp (x+1) y (by omega) (by omega) (by omega) (by omega),
    hp (x+2) y (by omega) (by omega) (by omega) (by omega),
    hp (x-2) (y+1) (by omega) (by omega) (by omega) (by omega),
    hp (x-1) (y+1) (by omega) (by omega) (by omega) (by omega),
    hp x (y+1) (by omega) (by omega) (by omega) (by omega),
    hp (x+1) (y+1) (by omega) (by omega) (by omega) (by omega),
    hp (x+2) (y+1) (by omega) (by omega) (by omega) (by omega),
    hp (x-2) (y+2) (by omega) (by omega) (by omega) (by omega),
    hp (x-1) (y+2) (by omega) (by omega) (by omega) (by omega),
    hp x (y+2) (by omega) (by omega) (by omega) (by omega),
    hp (x+1) (y+2) (by omega) (by omega) (by omega) (by omega),
    hp (x+2) (y+2) (by omega) (by omega) (by omega) (by omega)]
  unfold step_col step_profile
  interval_cases x <;> simp

theorem step_image_data (x y : Int) (hx0 : 0 ≤ x) (hx1 : x < 20) :
    step_image.data (y*20+x) = step_col x := by
  have e : (y*20+x) % 20 = x := by omega
  simp only [step_image, step_col, e]

theorem int_cast_intCast (k : Int) : int_cast (k : ℚ) = k := by
  unfold int_cast
  split_ifs
  · exact Int.floor_intCast k
  · exact Int.ceil_intCast k

theorem to_uint16_of_lt (k : Int) (h0 : 0 ≤ k) (h1 : k < 65536) : to_uint16 k = k.toNat := by
  unfold to_uint16
  rw [Int.emod_eq_of_lt h0 h1]

/-- Sobel responses of a 3x3 window whose samples depend on the column only. -/
theorem sobel_columns (d : Int → Nat) (S : Int → Nat) (w x y : Int)
    (hd : ∀ x' y' : Int, x-1 ≤ x' → x' ≤ x+1 → y-1 ≤ y' → y' ≤ y+1 → d (y'*w+x') = S x') :
    sobel_vx d w x y = 4 * (S (x-1) : Int) - 4 * (S (x+1) : Int) ∧ sobel_vy d w x y = 0 := by
  have a1 : d ((y-1)*w+x-1) = S (x-1) := by
    rw [show (y-1)*w+x-1 = (y-1)*w+(x-1) by ring]
    exact hd _ _ (by omega) (by omega) (by omega) (by omega)
  have a2 : d ((y-1)*w+x+0) = S x := by
    rw [show (y-1)*w+x+0 = (y-1)*w+x by ring]
    exact hd _ _ (by omega) (by omega) (by omega) (by omega)
  have a3 : d ((y-1)*w+x+1) = S (x+1) := by
    rw [show (y-1)*w+x+1 = (y-1)*w+(x+1) by ring]
    exact hd _ _ (by omega) (by omega) (by omega) (by omega)
  have a4 : d ((y+0)*w+x-1) = S (x-1) := by
    rw [show (y+0)*w+x-1 = y*w+(x-1) by ring]
    exact hd _ _ (by omega) (by omega) (by omega) (by omega)
  have a5 : d ((y+0)*w+x+1) = S (x+1) := by
    rw [show (y+0)*w+x+1 = y*w+(x+1) by ring]
    exact hd _ _ (by omega) (by omega) (by omega) (by omega)
  have a6 : d ((y+1)*w+x-1) = S (x-1) := by
    rw [show (y+1)*w+x-1 = (y+1)*w+(x-1) by ring]
    exact hd _ _ (by omega) (by omega) (by omega) (by omega)
  have a7 : d ((y+1)*w+x+0) = S x := by
    rw [show (y+1)*w+x+0 = (y+1)*w+x by ring]
    exact hd _ _ (by omega) (by omega) (by omega) (by omega)
  have a8 : d ((y+1)*w+x+1) = S (x+1) := by
    rw [show (y+1)*w+x+1 = (y+1)*w+(x+1) by ring]
    exact hd _ _ (by omega) (by omega) (by omega) (by omega)
  unfold sobel_vx sobel_vy
  rw [a1, a2, a3, a4, a5, a6, a7, a8]
  simp only [Nat.shiftLeft_eq, pow_one]
  push_cast
  constructor <;> ring

/-- The magnitude stored for a gradient vector `(v, 0)` when the square root is exact on
squares. -/
theorem magnitude_of_horizontal (E : externals)
    (hsqrt : ∀ k : Int, 0 ≤ k → E.fast_sqrtf (k*k) = (k : ℚ)) (v : Int) (hv : |v| < 65536) :
    to_uint16 (int_cast (E.fast_sqrtf (v*v + 0*0))) = v.natAbs := by
  have e : v*v + 0*0 = |v| * |v| := by rw [abs_mul_abs_self]; ring
  rw [e, hsqrt _ (abs_nonneg v), int_cast_intCast, to_uint16_of_lt _ (abs_nonneg v) hv]
  have h : ((|v|).toNat : Int) = (v.natAbs : Int) := by
    rw [Int.toNat_of_nonneg (abs_nonneg v), Int.abs_eq_natAbs]
  exact_mod_cast h

theorem gradient_entry_g_step (E : externals)
    (hsqrt : ∀ k : Int, 0 ≤ k → E.fast_sqrtf (k*k) = (k : ℚ)) (d : Int → Nat) (w x y : Int)
    (hx0 : 0 ≤ x) (hx1 : x ≤ 19)
    (hd : ∀ x' y' : Int, x-1 ≤ x' → x' ≤ x+1 → y-1 ≤ y' → y' ≤ y+1 →
      d (y'*w+x') = step_profile x') :
    (gradient_entry E d w x y).g = step_mag x := by
  obtain ⟨hvx, hvy⟩ := sobel_columns d step_profile w x y hd
  unfold gradient_entry
  simp only [hvx, hvy]
  rw [magnitude_of_horizontal E hsqrt]
  · unfold step_profile step_mag
    interval_cases x <;> simp
  · unfold step_profile
    interval_cases x <;> simp

theorem hysteresis_entry_g_keep (w low high : Int) (gm : Int → gvec_t) (x y : Int)
    (h : ((gm (y*w+x)).g : Int) ≥ high ∨ (gm (y*w+x)).g = 0) :
    (hysteresis_entry w low high gm x y).g = (gm (y*w+x)).g := by
  rcases hysteresis_entry_g w low high gm x y with e | e
  · exact e
  · rcases h with h | h
    · unfold hysteresis_entry
      simp only [if_pos h]
    · rw [e, h]

theorem step_mag_strong_or_zero (x : Int) : ((step_mag x : Nat) : Int) ≥ 100 ∨ step_mag x = 0 := by
  unfold step_mag
  split_ifs <;> simp

theorem step_mag_not_max (x : Int) :
    step_mag x ≤ step_mag (x-1) ∨ step_mag x ≤ step_mag (x+1) := by
  by_cases h : 6 ≤ x ∧ x ≤ 13
  · obtain ⟨h1, h2⟩ := h
    unfold step_mag
    interval_cases x <;> simp
  · left
    have : step_mag x = 0 := by
      unfold step_mag
      split_ifs <;> first | rfl | omega
    rw [this]
    exact Nat.zero_le _

/-- The last stage stores 0 at a pixel when the magnitudes around it depend on the column only
and no column exceeds both its neighbours. -/
theorem nms_out_zero_of_columns (w : Int) (roi : rectangle_t) (gm : Int → gvec_t) (x y : Int)
    (M : Int → Nat) (hM : M x ≤ M (x-1) ∨ M x ≤ M (x+1))
    (hn : ∀ x' y' : Int, x-1 ≤ x' → x' ≤ x+1 → y-1 ≤ y' → y' ≤ y+1 → (gm (y'*w+x')).g = M x') :
    nms_out w roi gm x y = 0 := by
  have c := hn x y (by omega) (by omega) (by omega) (by omega)
  have n1 := hn (x-1) y (by omega) (by omega) (by omega) (by omega)
  have n2 := hn (x+1) y (by omega) (by omega) (by omega) (by omega)
  have n3 := hn (x-1) (y+1) (by omega) (by omega) (by omega) (by omega)
  have n4 := hn (x+1) (y-1) (by omega) (by omega) (by omega) (by omega)
  have n5 := hn x (y+1) (by omega) (by omega) (by omega) (by omega)
  have n6 := hn x (y-1) (by omega) (by omega) (by omega) (by omega)
  have n7 := hn (x+1) (y+1) (by omega) (by omega) (by omega) (by omega)
  have n8 := hn (x-1) (y-1) (by omega) (by omega) (by omega) (by omega)
  unfold nms_out
  split_ifs
  · rfl
  · unfold nms_select
    split_ifs
    · simp only [add_zero, c, n1, n2]
      exact if_pos (by omega)
    · simp only [add_zero, c, n3, n4]
      exact if_pos (by omega)
    · simp only [add_zero, c, n5, n6]
      exact if_pos (by omega)
    · simp only [add_zero, c, n7, n8]
      exact if_pos (by omega)
    · rfl

theorem step_roi_inside : roi_inside 20 20 step_roi := by decide

/-- The magnitudes after hysteresis (thresholds 20 and 100) on a square of the image where the
smoothed samples are the column profile of the step. -/
theorem step_field (E : externals) (hsqrt : ∀ k : Int, 0 ≤ k → E.fast_sqrtf (k*k) = (k : ℚ))
    (d : Int → Nat) (a b : Int) (ha : 0 ≤ a) (hb : b ≤ 19)
    (hd : ∀ x y : Int, a ≤ x → x ≤ b → a ≤ y → y ≤ b → d (y*20+x) = step_profile x)
    (x y : Int) (hx0 : a+1 ≤ x) (hx1 : x ≤ b-1) (hy0 : a+1 ≤ y) (hy1 : y ≤ b-1) :
    (hysteresis 20 step_roi 20 100 (gradient E d 20 step_roi fb_alloc0) (y*20+x)).g =
      step_mag x := by
  have hp : processed step_roi x y := by
    unfold processed in_rect
    simp only [step_roi]
    omega
  have hg : (gradient E d 20 step_roi fb_alloc0 (y*20+x)).g = step_mag x := by
    rw [(gradient_cells E d 20 20 step_roi fb_alloc0 step_roi_inside).1 x y hp]
    exact gradient_entry_g_step E hsqrt d 20 x y (by omega) (by omega)
      (fun x' y' h1 h2 h3 h4 => hd x' y' (by omega) (by omega) (by omega) (by omega))
  rw [(hysteresis_cells 20 step_roi 20 100 _).1 x y hp]
  rw [hysteresis_entry_g_keep, hg]
  rw [hg]
  exact step_mag_strong_or_zero x

/-- The last stage stores 0 at every pixel that is at least 2 inside a square of the image
where the smoothed samples are the column profile of the step. -/
theorem step_region_zero (E : externals)
    (hsqrt : ∀ k : Int, 0 ≤ k → E.fast_sqrtf (k*k) = (k : ℚ))
    (d : Int → Nat) (a b : Int) (ha : 0 ≤ a) (hb : b ≤ 19)
    (hd : ∀ x y : Int, a ≤ x → x ≤ b → a ≤ y → y ≤ b → d (y*20+x) = step_profile x)
    (x y : Int) (hx0 : a+2 ≤ x) (hx1 : x ≤ b-2) (hy0 : a+2 ≤ y) (hy1 : y ≤ b-2) :
    nms_out 20 step_roi (hysteresis 20 step_roi 20 100 (gradient E d 20 step_roi fb_alloc0))
      x y = 0 :=
  nms_out_zero_of_columns 20 step_roi _ x y step_mag (step_mag_not_max x)
    (fun x' y' h1 h2 h3 h4 => step_field E hsqrt d a b ha hb hd x' y'
      (by omega) (by omega) (by omega) (by omega))

theorem smooths_interior_step (E : externals) (hs : smooths_interior E step_image)
    (x y : Int) (hx0 : 2 ≤ x) (hx1 : x ≤ 17) (hy0 : 2 ≤ y) (hy1 : y ≤ 17) :
    E.imlib_morph step_image (y*20+x) = step_profile x := by
  have h := hs x y hx0 (by simp only [step_image]; omega) hy0 (by simp only [step_image]; omega)
  have hw : step_image.w = 20 := rfl
  rw [hw] at h
  rw [h]
  apply gauss_step _ x y (by omega) (by omega)
  intro x' y' h1 h2 _ _
  exact step_image_data x' y' (by omega) (by omega)

theorem clampi_col (x' : Int) : step_col (clampi x' 20) = step_col x' := by
  unfold step_col clampi
  rcases le_total 0 (min (20 - 1) x') with h | h
  · rw [max_eq_right h]
    rcases le_total (20 - 1) x' with h' | h'
    · rw [min_eq_left h', if_pos (by omega), if_pos (by omega)]
    · rw [min_eq_right h']
  · rw [max_eq_left h]
    have : x' ≤ 0 := by
      rcases le_total (20 - 1) x' with h' | h'
      · rw [min_eq_left h'] at h; omega
      · rw [min_eq_right h'] at h; exact h
    rw [if_neg (by omega), if_neg (by omega)]

theorem clampi_range (v : Int) : 0 ≤ clampi v 20 ∧ clampi v 20 < 20 := by
  unfold clampi
  constructor
  · exact le_max_left _ _
  · apply max_lt (by omega)
    exact lt_of_le_of_lt (min_le_left _ _) (by omega)

theorem imlib_morph_clamped_step (x y : Int) (hx0 : 0 ≤ x) (hx1 : x ≤ 19) :
    imlib_morph_clamped step_image (y*20+x) = step_profile x := by
  unfold imlib_morph_clamped
  have hw : step_image.w = 20 := rfl
  have hh : step_image.h = 20 := rfl
  rw [hw, hh]
  have e1 : (y*20+x) % 20 = x := by omega
  have e2 : (y*20+x) / 20 = y := by omega
  rw [e1, e2]
  apply gauss_step _ x y hx0 hx1
  intro x' y' _ _ _ _
  rw [step_image_data _ _ (clampi_range x').1 (clampi_range x').2]
  exact clampi_col x'

theorem scenario_smooths_interior : smooths_interior scenario_externals step_image := by
  intro x y hx0 hx1 hy0 hy1
  have hw : step_image.w = 20 := rfl
  have hh : step_image.h = 20 := rfl
  rw [hw] at hx1 ⊢
  rw [hh] at hy1
  have h1 : scenario_externals.imlib_morph step_image (y*20+x) = step_profile x :=
    imlib_morph_clamped_step x y (by omega) (by omega)
  rw [h1]
  symm
  apply gauss_step _ x y (by omega) (by omega)
  intro x' y' h1 h2 _ _
  exact step_image_data x' y' (by omega) (by omega)

theorem scenario_sqrt_exact (k : Int) (hk : 0 ≤ k) :
    scenario_externals.fast_sqrtf (k*k) = (k : ℚ) := by
  obtain ⟨n, rfl⟩ := Int.eq_ofNat_of_zero_le hk
  show ((Nat.sqrt ((n : Int) * (n : Int)).toNat : Nat) : ℚ) = ((n : Int) : ℚ)
  have : ((n : Int) * (n : Int)).toNat = n * n := by
    rw [← Int.natCast_mul]; exact Int.toNat_natCast _
  rw [this, Nat.sqrt_eq]
  simp

theorem scenario_angle_in_range : angle_in_range scenario_externals := example_angle_in_range

/-- C8, as amended: for the 20x20 step image (columns 0..9 equal to 0, columns 10..19 equal to
255), ROI `(0, 0, 20, 20)`, `low = 20`, `high = 100`, a smoothing that stores the 5x5 Gaussian
sum scaled by 1/159 wherever the window lies in the image (whatever it stores within 2 of the
image border), a square root exact on squares and angles in `[0, 180]`: `imlib_edge_canny`
returns; on rows 3..16 the magnitudes of columns 9 and 10 after hysteresis are both 556; every
pixel with `4 <= x <= 15` and `4 <= y <= 15` is 0, so no line of 255 pixels appears near
column 10; and every pixel within 2 of the ROI border is 0. -/
theorem step_scenario_interior_zero (E : externals) (hE : angle_in_range E)
    (hsqrt : ∀ k : Int, 0 ≤ k → E.fast_sqrtf (k*k) = (k : ℚ))
    (hs : smooths_interior E step_image) :
    ∃ out, imlib_edge_canny E step_image step_roi 20 100 = some out ∧
      (∀ y, 3 ≤ y → y ≤ 16 →
        (hysteresis 20 step_roi 20 100
          (gradient E (E.imlib_morph step_image) 20 step_roi fb_alloc0) (y*20+9)).g = 556 ∧
        (hysteresis 20 step_roi 20 100
          (gradient E (E.imlib_morph step_image) 20 step_roi fb_alloc0) (y*20+10)).g = 556) ∧
      (∀ x y, 4 ≤ x → x ≤ 15 → 4 ≤ y → y ≤ 15 → out.data (y*20+x) = 0) ∧
      (∀ x y, in_roi step_roi x y → (x < 2 ∨ x > 17 ∨ y < 2 ∨ y > 17) →
        out.data (y*20+x) = 0) := by
  have hd : ∀ x y : Int, 2 ≤ x → x ≤ 17 → 2 ≤ y → y ≤ 17 →
      E.imlib_morph step_image (y*20+x) = step_profile x :=
    fun x y h1 h2 h3 h4 => smooths_interior_step E hs x y h1 h2 h3 h4
  refine ⟨_, imlib_edge_canny_eq E step_image step_roi 20 100 hE, ?_, ?_, ?_⟩
  · intro y hy0 hy1
    have hw : step_image.w = 20 := rfl
    constructor
    · exact step_field E hsqrt _ 2 17 (by omega) (by omega) hd 9 y
        (by omega) (by omega) (by omega) (by omega)
    · exact step_field E hsqrt _ 2 17 (by omega) (by omega) hd 10 y
        (by omega) (by omega) (by omega) (by omega)
  · intro x y hx0 hx1 hy0 hy1
    have hr : in_roi step_roi x y := by
      unfold in_roi in_rect
      simp only [step_roi]
      omega
    have hcell := (nms_pure_cells 20 20 step_roi (hysteresis 20 step_roi 20 100
      (gradient E (E.imlib_morph step_image) 20 step_roi fb_alloc0))
      (E.imlib_morph step_image) step_roi_inside).1 x y hr
    have hw : step_image.w = 20 := rfl
    simp only [hw, hcell]
    exact step_region_zero E hsqrt _ 2 17 (by omega) (by omega) hd x y
      (by omega) (by omega) (by omega) (by omega)
  · intro x y hr hb
    have hcell := (nms_pure_cells 20 20 step_roi (hysteresis 20 step_roi 20 100
      (gradient E (E.imlib_morph step_image) 20 step_roi fb_alloc0))
      (E.imlib_morph step_image) step_roi_inside).1 x y hr
    have hw : step_image.w = 20 := rfl
    simp only [hw, hcell]
    unfold nms_out
    rw [if_pos]
    unfold nms_border
    simp only [step_roi]
    omega

theorem step_scenario_interior_zero_witness :
    angle_in_range scenario_externals ∧
    (∀ k : Int, 0 ≤ k → scenario_externals.fast_sqrtf (k*k) = (k : ℚ)) ∧
    smooths_interior scenario_externals step_image ∧
    ∃ out, imlib_edge_canny scenario_externals step_image step_roi 20 100 = some out ∧
      (∀ y, 3 ≤ y → y ≤ 16 →
        (hysteresis 20 step_roi 20 100 (gradient scenario_externals
          (scenario_externals.imlib_morph step_image) 20 step_roi fb_alloc0) (y*20+9)).g = 556 ∧
        (hysteresis 20 step_roi 20 100 (gradient scenario_externals
          (scenario_externals.imlib_morph step_image) 20 step_roi fb_alloc0) (y*20+10)).g = 556) ∧
      (∀ x y, 4 ≤ x → x ≤ 15 → 4 ≤ y → y ≤ 15 → out.data (y*20+x) = 0) ∧
      (∀ x y, in_roi step_roi x y → (x < 2 ∨ x > 17 ∨ y < 2 ∨ y > 17) →
        out.data (y*20+x) = 0) :=
  ⟨scenario_angle_in_range, scenario_sqrt_exact, scenario_smooths_interior,
    step_scenario_interior_zero scenario_externals scenario_angle_in_range scenario_sqrt_exact
      scenario_smooths_interior⟩

/-- C8, counterexample: with the smoothing `imlib_morph_clamped` (the 5x5 Gaussian kernel
scaled by 1/159), the exact integer square root and the step image, ROI `(0, 0, 20, 20)`,
`low = 20`, `high = 100`, `imlib_edge_canny` returns an image whose ROI pixels are all 0: there
is no 255 pixel in columns 9..11 on the interior rows 2..17. -/
theorem step_scenario_no_edge :
    ∃ out, imlib_edge_canny scenario_externals step_image step_roi 20 100 = some out ∧
      (∀ x y, in_roi step_roi x y → out.data (y*20+x) = 0) ∧
      ¬ ∃ x y, 9 ≤ x ∧ x ≤ 11 ∧ 2 ≤ y ∧ y ≤ 17 ∧ out.data (y*20+x) = 255 := by
  have hd : ∀ x y : Int, 0 ≤ x → x ≤ 19 → 0 ≤ y → y ≤ 19 →
      scenario_externals.imlib_morph step_image (y*20+x) = step_profile x :=
    fun x y h1 h2 _ _ => imlib_morph_clamped_step x y h1 h2
  have hzero : ∀ x y, in_roi step_roi x y →
      nms_pure 20 step_roi (hysteresis 20 step_roi 20 100
        (gradient scenario_externals (scenario_externals.imlib_morph step_image) 20 step_roi
          fb_alloc0)) (scenario_externals.imlib_morph step_image) (y*20+x) = 0 := by
    intro x y hr
    rw [(nms_pure_cells 20 20 step_roi _ _ step_roi_inside).1 x y hr]
    by_cases hb : nms_border step_roi x y
    · unfold nms_out
      rw [if_pos hb]
    · unfold nms_border at hb
      simp only [step_roi] at hb
      exact step_region_zero scenario_externals scenario_sqrt_exact _ 0 19 (by omega) (by omega)
        hd x y (by omega) (by omega) (by omega) (by omega)
  refine ⟨_, imlib_edge_canny_eq scenario_externals step_image step_roi 20 100
    scenario_angle_in_range, ?_, ?_⟩
  · intro x y hr
    have hw : step_image.w = 20 := rfl
    simp only [hw]
    exact hzero x y hr
  · rintro ⟨x, y, hx0, hx1, hy0, hy1, h⟩
    have hr : in_roi step_roi x y := by
      unfold in_roi in_rect
      simp only [step_roi]
      omega
    have hw : step_image.w = 20 := rfl
    simp only [hw] at h
    rw [hzero x y hr] at h
    exact absurd h (by decide)

/-! ## The claims on the behaviour of the stages -/

theorem sobel_eq_spec (data : Int → Nat) (w x y : Int) :
    sobel_vx data w x y = spec_sobel_vx (fun a b => (data (b*w+a) : Int)) x y ∧
    sobel_vy data w x y = spec_sobel_vy (fun a b => (data (b*w+a) : Int)) x y := by
  unfold sobel_vx sobel_vy spec_sobel_vx spec_sobel_vy
  simp only [Nat.shiftLeft_eq, pow_one]
  have e1 : (y-1)*w+x-1 = (y-1)*w+(x-1) := by ring
  have e2 : (y-1)*w+x+0 = (y-1)*w+x := by ring
  have e3 : (y-1)*w+x+1 = (y-1)*w+(x+1) := by ring
  have e4 : (y+0)*w+x-1 = y*w+(x-1) := by ring
  have e5 : (y+0)*w+x+1 = y*w+(x+1) := by ring
  have e6 : (y+1)*w+x-1 = (y+1)*w+(x-1) := by ring
  have e7 : (y+1)*w+x+0 = (y+1)*w+x := by ring
  have e8 : (y+1)*w+x+1 = (y+1)*w+(x+1) := by ring
  rw [e1, e2, e3, e4, e5, e6, e7, e8]
  push_cast
  constructor <;> ring

/-- C11: for every pixel `(x, y)` at least 1 inside the border of an ROI inside the image, the
`vx` and `vy` of the gradient stage are the 3x3 Sobel sums the specification writes (the shifts
by 1 are multiplications by 2, the centre has weight 0), and the entry at index `y*w+x` after
the stage holds the magnitude `(int) fast_sqrtf(vx*vx + vy*vy)` and the quantised class of
`(int) fast_fabsf(atan2f(vy, vx)*180/pi)`, each stored into its 16-bit field. -/
theorem gradient_stage_sobel (E : externals) (data : Int → Nat) (w h : Int)
    (roi : rectangle_t) (hroi : roi_inside w h roi) (x y : Int) (hp : processed roi x y) :
    sobel_vx data w x y = spec_sobel_vx (fun a b => (data (b*w+a) : Int)) x y ∧
    sobel_vy data w x y = spec_sobel_vy (fun a b => (data (b*w+a) : Int)) x y ∧
    gradient E data w roi fb_alloc0 (y*w+x) =
      { t := to_uint16 (quantize (int_cast (E.fast_fabsf (E.atan2f_deg
              (spec_sobel_vy (fun a b => (data (b*w+a) : Int)) x y)
              (spec_sobel_vx (fun a b => (data (b*w+a) : Int)) x y))))),
        g := to_uint16 (int_cast (E.fast_sqrtf
              (spec_sobel_vx (fun a b => (data (b*w+a) : Int)) x y *
                spec_sobel_vx (fun a b => (data (b*w+a) : Int)) x y +
               spec_sobel_vy (fun a b => (data (b*w+a) : Int)) x y *
                spec_sobel_vy (fun a b => (data (b*w+a) : Int)) x y))) } := by
  obtain ⟨hx, hy⟩ := sobel_eq_spec data w x y
  refine ⟨hx, hy, ?_⟩
  rw [(gradient_cells E data w h roi fb_alloc0 hroi).1 x y hp]
  unfold gradient_entry
  simp only [hx, hy]

theorem gradient_stage_sobel_witness :
    roi_inside 6 6 example_roi ∧ processed example_roi 2 3 ∧
    (sobel_vx example_image.data 6 2 3 =
      spec_sobel_vx (fun a b => (example_image.data (b*6+a) : Int)) 2 3 ∧
    sobel_vy example_image.data 6 2 3 =
      spec_sobel_vy (fun a b => (example_image.data (b*6+a) : Int)) 2 3 ∧
    gradient example_externals example_image.data 6 example_roi fb_alloc0 (3*6+2) =
      { t := to_uint16 (quantize (int_cast (example_externals.fast_fabsf
              (example_externals.atan2f_deg
              (spec_sobel_vy (fun a b => (example_image.data (b*6+a) : Int)) 2 3)
              (spec_sobel_vx (fun a b => (example_image.data (b*6+a) : Int)) 2 3))))),
        g := to_uint16 (int_cast (example_externals.fast_sqrtf
              (spec_sobel_vx (fun a b => (example_image.data (b*6+a) : Int)) 2 3 *
                spec_sobel_vx (fun a b => (example_image.data (b*6+a) : Int)) 2 3 +
               spec_sobel_vy (fun a b => (example_image.data (b*6+a) : Int)) 2 3 *
                spec_sobel_vy (fun a b => (example_image.data (b*6+a) : Int)) 2 3))) }) :=
  ⟨by decide, by decide,
    gradient_stage_sobel example_externals example_image.data 6 6 example_roi (by decide) 2 3
      (by decide)⟩

/-- C12: the hysteresis rule is single-hop: there are a gradient field, thresholds
`low <= high` and a chain of a strong pixel `S` (magnitude `>= high`), a weak pixel `A` adjacent
to `S` and a weak pixel `B` adjacent to `A` with no 8-neighbour of magnitude `>= high`, such
that the hysteresis stage keeps the magnitude of `A` and zeroes that of `B`. -/
theorem hysteresis_single_hop :
    ∃ (gm : Int → gvec_t) (w : Int) (roi : rectangle_t) (low high : Int) (S A B : Int × Int),
      low ≤ high ∧
      ((gm (S.2*w+S.1)).g : Int) ≥ high ∧
      A ∈ neighbours8 S.1 S.2 ∧
      low ≤ ((gm (A.2*w+A.1)).g : Int) ∧ ((gm (A.2*w+A.1)).g : Int) < high ∧
      B ∈ neighbours8 A.1 A.2 ∧
      low ≤ ((gm (B.2*w+B.1)).g : Int) ∧ ((gm (B.2*w+B.1)).g : Int) < high ∧
      (∀ p ∈ neighbours8 B.1 B.2, ((gm (p.2*w+p.1)).g : Int) < high) ∧
      processed roi A.1 A.2 ∧ processed roi B.1 B.2 ∧
      (hysteresis w roi low high gm (A.2*w+A.1)).g = (gm (A.2*w+A.1)).g ∧
      (hysteresis w roi low high gm (B.2*w+B.1)).g = 0 :=
  ⟨chain_field, 6, example_roi, 20, 100, (2, 2), (3, 2), (4, 2), by decide⟩

/-- C13, counterexample: the integer angle 22 gets the class 45, at distance 23, while the
class 0 is at distance 22; the angle 158 gets the class 135, at distance 23, while the class 0
(that is 180) is at distance 22.  So the class is not always the nearest orientation. -/
theorem quantize_not_nearest :
    quantize 22 = 45 ∧ class_dist 22 (quantize 22) = 23 ∧ class_dist 22 0 = 22 ∧
    quantize 158 = 135 ∧ class_dist 158 (quantize 158) = 23 ∧ class_dist 158 0 = 22 ∧
    ¬ (∀ t : Int, 0 ≤ t → t ≤ 180 → ∀ c : Int, c = 0 ∨ c = 45 ∨ c = 90 ∨ c = 135 →
      class_dist t (quantize t) ≤ class_dist t c) := by
  refine ⟨by decide, by decide, by decide, by decide, by decide, by decide, ?_⟩
  intro h
  exact absurd (h 22 (by decide) (by decide) 0 (Or.inl rfl)) (by decide)

/-- C13, as amended: for every integer angle `t` in `[0, 180]` other than 158 and 159, the
distance of `t` to the class the quantiser assigns exceeds the distance to any of the four
classes by at most 1, and it is minimal unless `t` is 22, 67 or 112. -/
theorem quantize_nearly_nearest (t : Int) (h0 : 0 ≤ t) (h1 : t ≤ 180) (h158 : t ≠ 158)
    (h159 : t ≠ 159) (c : Int) (hc : c = 0 ∨ c = 45 ∨ c = 90 ∨ c = 135) :
    class_dist t (quantize t) ≤ class_dist t c + 1 ∧
    (t ≠ 22 → t ≠ 67 → t ≠ 112 → class_dist t (quantize t) ≤ class_dist t c) := by
  unfold quantize class_dist
  simp only [Int.abs_eq_natAbs]
  rcases hc with rfl | rfl | rfl | rfl <;> split_ifs <;> omega

theorem quantize_nearly_nearest_witness :
    (0 : Int) ≤ 100 ∧ (100 : Int) ≤ 180 ∧ (100 : Int) ≠ 158 ∧ (100 : Int) ≠ 159 ∧
    ((45 : Int) = 0 ∨ (45 : Int) = 45 ∨ (45 : Int) = 90 ∨ (45 : Int) = 135) ∧
    (class_dist 100 (quantize 100) ≤ class_dist 100 45 + 1 ∧
    ((100 : Int) ≠ 22 → (100 : Int) ≠ 67 → (100 : Int) ≠ 112 →
      class_dist 100 (quantize 100) ≤ class_dist 100 45)) :=
  ⟨by decide, by decide, by decide, by decide, by decide,
    quantize_nearly_nearest 100 (by decide) (by decide) (by decide) (by decide) 45
      (by decide)⟩

/-- C14, the code at a failing input: in the 5x5 image whose only non-zero smoothed sample is
the top-left neighbour of `(2, 2)`, the Sobel response at `(2, 2)` is `(10, 10)`, exactly
diagonal; its angle is 45 degrees and the gradient stage stores the class 45; the pair the
`switch` selects for it is `(1, 3)`, `(3, 1)`, at the offsets `(-1, 1)` and `(1, -1)`, which
are not collinear with `(10, 10)`.  With the non-zero sample at the bottom-left neighbour the
response is `(10, -10)`, the class and the pair are the same, and the offsets are collinear. -/
theorem nms_pair_across_gradient :
    (sobel_vx corner_data 5 2 2 = 10 ∧ sobel_vy corner_data 5 2 2 = 10 ∧
      example_externals.fast_fabsf (example_externals.atan2f_deg 10 10) = 45 ∧
      (gradient example_externals corner_data 5 corner_roi fb_alloc0 (2*5+2)).t = 45 ∧
      nms_select 5 45 2 2 = some (3*5+1, 1*5+3) ∧
      spec_neighbours 45 2 2 = some ((1, 3), (3, 1)) ∧
      ¬ collinear (1 - 2) (3 - 2) 10 10 ∧ ¬ collinear (3 - 2) (1 - 2) 10 10) ∧
    (sobel_vx corner_data_low 5 2 2 = 10 ∧ sobel_vy corner_data_low 5 2 2 = -10 ∧
      example_externals.fast_fabsf (example_externals.atan2f_deg (-10) 10) = 45 ∧
      (gradient example_externals corner_data_low 5 corner_roi fb_alloc0 (2*5+2)).t = 45 ∧
      collinear (1 - 2) (3 - 2) 10 (-10) ∧ collinear (3 - 2) (1 - 2) 10 (-10)) := by
  refine ⟨⟨by decide, by decide, ?_, by decide, by decide, by decide, by decide, by decide⟩,
    ⟨by decide, by decide, ?_, by decide, by decide, by decide⟩⟩
  · simp [example_externals]
  · simp [example_externals]

theorem gvec_eq (a b : gvec_t) (ht : a.t = b.t) (hg : a.g = b.g) : a = b := by
  cases a; cases b; simp_all

theorem example_entry_g (data : Int → Nat) (w x y : Int) (k : Nat) (hk : k < 65536)
    (h1 : ((k * k : Nat) : Int) ≤ sobel_vx data w x y * sobel_vx data w x y +
      sobel_vy data w x y * sobel_vy data w x y)
    (h2 : sobel_vx data w x y * sobel_vx data w x y +
      sobel_vy data w x y * sobel_vy data w x y < (((k + 1) * (k + 1) : Nat) : Int)) :
    (gradient_entry example_externals data w x y).g = k := by
  unfold gradient_entry
  simp only [example_externals]
  have hs : Nat.sqrt (sobel_vx data w x y * sobel_vx data w x y +
      sobel_vy data w x y * sobel_vy data w x y).toNat = k := by
    symm
    apply Nat.eq_sqrt.mpr
    constructor <;> omega
  rw [hs]
  have e : ((k : Nat) : ℚ) = ((k : Int) : ℚ) := by push_cast; rfl
  rw [e, int_cast_intCast]
  unfold to_uint16
  omega

theorem raise_roi_inside : roi_inside 7 7 raise_roi := by decide

/-- The gradient stage on `raise_data` computes the field `raise_field`. -/
theorem raise_gradient :
    gradient example_externals raise_data 7 raise_roi fb_alloc0 = raise_field := by
  have hc := gradient_cells example_externals raise_data 7 7 raise_roi fb_alloc0
    raise_roi_inside
  funext j
  by_cases hj : ∃ x y, processed raise_roi x y ∧ j = y*7+x
  · obtain ⟨x, y, hp, e⟩ := hj
    rw [e, hc.1 x y hp]
    unfold processed in_rect at hp
    simp only [raise_roi] at hp
    obtain ⟨h1, h2, h3, h4⟩ := hp
    have hx1 : 1 ≤ x := by omega
    have hx2 : x ≤ 5 := by omega
    have hy1 : 1 ≤ y := by omega
    have hy2 : y ≤ 5 := by omega
    clear h1 h2 h3 h4 e
    interval_cases x <;> interval_cases y <;>
      exact gvec_eq _ _ (by decide)
        (example_entry_g _ _ _ _ _ (by decide) (by decide) (by decide))
  · have hj' : ∀ x y, processed raise_roi x y → j ≠ y*7+x := fun x y hp e => hj ⟨x, y, hp, e⟩
    rw [hc.2 j hj']
    have n8 : j ≠ 8 := hj' 1 1 (by decide)
    have n10 : j ≠ 10 := hj' 3 1 (by decide)
    have n15 : j ≠ 15 := hj' 1 2 (by decide)
    have n16 : j ≠ 16 := hj' 2 2 (by decide)
    have n17 : j ≠ 17 := hj' 3 2 (by decide)
    have n18 : j ≠ 18 := hj' 4 2 (by decide)
    have n23 : j ≠ 23 := hj' 2 3 (by decide)
    have n25 : j ≠ 25 := hj' 4 3 (by decide)
    have n30 : j ≠ 30 := hj' 2 4 (by decide)
    have n31 : j ≠ 31 := hj' 3 4 (by decide)
    have n32 : j ≠ 32 := hj' 4 4 (by decide)
    unfold raise_field
    simp only [n8, n10, n15, n16, n17, n18, n23, n25, n30, n31, n32, if_false]
    rfl

/-- C15, counterexample: on the gradient field of the smoothed image `raise_data` (7x7, whole
image as ROI) the pixel `(2, 2)` is 0 in the output under the thresholds `(10, 20)` and 255
under the raised thresholds `(10, 100)`: its right neighbour `(3, 2)`, of magnitude 31 against
20, is kept under `(10, 20)` and zeroed under `(10, 100)`, while `(2, 2)` is kept by its strong
neighbour `(1, 1)`. -/
theorem raising_thresholds_adds_edge :
    (10 : Int) ≤ 10 ∧ (20 : Int) ≤ 100 ∧ in_roi raise_roi 2 2 ∧
    (nms 7 raise_roi (hysteresis 7 raise_roi 10 20
      (gradient example_externals raise_data 7 raise_roi fb_alloc0)) raise_data).map
        (fun out => out (2*7+2)) = some 0 ∧
    (nms 7 raise_roi (hysteresis 7 raise_roi 10 100
      (gradient example_externals raise_data 7 raise_roi fb_alloc0)) raise_data).map
        (fun out => out (2*7+2)) = some 255 := by
  rw [raise_gradient]
  decide

theorem hysteresis_t (w : Int) (roi : rectangle_t) (low high : Int) (gm : Int → gvec_t)
    (j : Int) : (hysteresis w roi low high gm j).t = (gm j).t := by
  have hc := hysteresis_cells w roi low high gm
  by_cases hj : ∃ x y, processed roi x y ∧ j = y*w+x
  · obtain ⟨x, y, hp, e⟩ := hj
    rw [e, hc.1 x y hp, hysteresis_entry_t]
  · rw [hc.2 j (fun x y hp e => hj ⟨x, y, hp, e⟩)]

theorem hysteresis_g (w : Int) (roi : rectangle_t) (low high : Int) (gm : Int → gvec_t)
    (j : Int) :
    (hysteresis w roi low high gm j).g = (gm j).g ∨ (hysteresis w roi low high gm j).g = 0 := by
  have hc := hysteresis_cells w roi low high gm
  by_cases hj : ∃ x y, processed roi x y ∧ j = y*w+x
  · obtain ⟨x, y, hp, e⟩ := hj
    rw [e, hc.1 x y hp]
    exact hysteresis_entry_g w low high gm x y
  · left
    rw [hc.2 j (fun x y hp e => hj ⟨x, y, hp, e⟩)]

theorem hysteresis_g_mono (w : Int) (roi : rectangle_t) (gm : Int → gvec_t)
    (low high low' high' : Int) (hl : low ≤ low') (hh : high ≤ high') (j : Int)
    (h0 : (hysteresis w roi low high gm j).g = 0) :
    (hysteresis w roi low' high' gm j).g = 0 := by
  have hc := hysteresis_cells w roi low high gm
  have hc' := hysteresis_cells w roi low' high' gm
  by_cases hj : ∃ x y, processed roi x y ∧ j = y*w+x
  · obtain ⟨x, y, hp, e⟩ := hj
    rw [e, hc.1 x y hp] at h0
    rw [e, hc'.1 x y hp]
    exact hysteresis_entry_mono w low high low' high' gm x y hl hh h0
  · have hj' : ∀ x y, processed roi x y → j ≠ y*w+x := fun x y hp e => hj ⟨x, y, hp, e⟩
    rw [hc.2 j hj'] at h0
    rw [hc'.2 j hj']
    exact h0

/-- The sample the last stage stores at a pixel that is not within 2 of the ROI border, in
terms of the neighbour pair of the specification. -/
theorem nms_out_interior (w : Int) (roi : rectangle_t) (gm : Int → gvec_t) (x y : Int)
    (hb : ¬ nms_border roi x y) (ht : valid_class (gm (y*w+x)).t) :
    ∃ a b, spec_neighbours (gm (y*w+x)).t x y = some (a, b) ∧
      nms_out w roi gm x y =
        (if (gm (y*w+x)).g > (gm (a.2*w+a.1)).g ∧ (gm (y*w+x)).g > (gm (b.2*w+b.1)).g
          then 255 else 0) := by
  obtain ⟨a, b, hab, hsel⟩ := spec_neighbours_select w (gm (y*w+x)).t x y ht
  refine ⟨a, b, hab, ?_⟩
  unfold nms_out
  rw [if_neg hb, hsel]
  simp only
  split_ifs <;> rfl

theorem nms_out_border (w : Int) (roi : rectangle_t) (gm : Int → gvec_t) (x y : Int)
    (hb : nms_border roi x y) : nms_out w roi gm x y = 0 := by
  unfold nms_out
  rw [if_pos hb]

/-- C15, as amended: for a fixed gradient field (valid classes at the pixels that are not
within 2 of the border of an ROI inside the image) and thresholds with `low <= low'` and
`high <= high'`, both runs of hysteresis and the last stage return, and every ROI pixel that is
255 under `(low', high')` has a non-zero magnitude that hysteresis keeps under `(low, high)`;
it is 255 under `(low, high)` as well whenever hysteresis leaves its two selected neighbours
with the same magnitudes under both threshold pairs. -/
theorem raising_thresholds_keeps_edge (w h : Int) (roi : rectangle_t) (gm : Int → gvec_t)
    (data : Int → Nat) (low high low' high' : Int) (hroi : roi_inside w h roi)
    (ht : ∀ x y, in_roi roi x y → ¬ nms_border roi x y → valid_class (gm (y*w+x)).t)
    (hl : low ≤ low') (hh : high ≤ high') :
    ∃ out out', nms w roi (hysteresis w roi low high gm) data = some out ∧
      nms w roi (hysteresis w roi low' high' gm) data = some out' ∧
      ∀ x y, in_roi roi x y → out' (y*w+x) = 255 →
        (hysteresis w roi low high gm (y*w+x)).g = (gm (y*w+x)).g ∧
        (gm (y*w+x)).g > 0 ∧
        ∃ a b, spec_neighbours (gm (y*w+x)).t x y = some (a, b) ∧
          ((hysteresis w roi low high gm (a.2*w+a.1)).g =
              (hysteresis w roi low' high' gm (a.2*w+a.1)).g →
            (hysteresis w roi low high gm (b.2*w+b.1)).g =
              (hysteresis w roi low' high' gm (b.2*w+b.1)).g →
            out (y*w+x) = 255) := by
  have hv : ∀ lo hi x y, in_roi roi x y → ¬ nms_border roi x y →
      valid_class (hysteresis w roi lo hi gm (y*w+x)).t := by
    intro lo hi x y hr hb
    rw [hysteresis_t]
    exact ht x y hr hb
  refine ⟨_, _, nms_eq_pure w roi _ data (hv low high),
    nms_eq_pure w roi _ data (hv low' high'), ?_⟩
  intro x y hr h255
  rw [(nms_pure_cells w h roi _ data hroi).1 x y hr] at h255
  rw [(nms_pure_cells w h roi _ data hroi).1 x y hr]
  have hb : ¬ nms_border roi x y := by
    intro hb
    rw [nms_out_border _ _ _ _ _ hb] at h255
    exact absurd h255 (by decide)
  obtain ⟨a, b, hab, ho'⟩ := nms_out_interior w roi (hysteresis w roi low' high' gm) x y hb
    (hv low' high' x y hr hb)
  obtain ⟨a2, b2, hab2, ho⟩ := nms_out_interior w roi (hysteresis w roi low high gm) x y hb
    (hv low high x y hr hb)
  rw [hysteresis_t] at hab hab2
  rw [hab] at hab2
  obtain ⟨rfl, rfl⟩ : a = a2 ∧ b = b2 := by
    have := Option.some.inj hab2
    exact ⟨congrArg Prod.fst this, congrArg Prod.snd this⟩
  rw [ho'] at h255
  have hgt : (hysteresis w roi low' high' gm (y*w+x)).g >
        (hysteresis w roi low' high' gm (a.2*w+a.1)).g ∧
      (hysteresis w roi low' high' gm (y*w+x)).g >
        (hysteresis w roi low' high' gm (b.2*w+b.1)).g := by
    by_contra hn
    rw [if_neg hn] at h255
    exact absurd h255 (by decide)
  have hpos' : (hysteresis w roi low' high' gm (y*w+x)).g ≠ 0 := by omega
  have hkeep' : (hysteresis w roi low' high' gm (y*w+x)).g = (gm (y*w+x)).g := by
    rcases hysteresis_g w roi low' high' gm (y*w+x) with e | e
    · exact e
    · exact absurd e hpos'
  have hkeep : (hysteresis w roi low high gm (y*w+x)).g = (gm (y*w+x)).g := by
    rcases hysteresis_g w roi low high gm (y*w+x) with e | e
    · exact e
    · exact absurd (hysteresis_g_mono w roi gm low high low' high' hl hh _ e) hpos'
  refine ⟨hkeep, by omega, a, b, hab, ?_⟩
  intro ea eb
  rw [ho, if_pos]
  rw [hkeep, ea, eb, ← hkeep']
  exact hgt

theorem raising_thresholds_keeps_edge_witness :
    roi_inside 6 6 example_roi ∧
    (∀ x y, in_roi example_roi x y → ¬ nms_border example_roi x y →
      valid_class (example_field (y*6+x)).t) ∧
    (20 : Int) ≤ 60 ∧ (100 : Int) ≤ 110 ∧
    ∃ out out', nms 6 example_roi (hysteresis 6 example_roi 20 100 example_field)
        example_image.data = some out ∧
      nms 6 example_roi (hysteresis 6 example_roi 60 110 example_field)
        example_image.data = some out' ∧
      ∀ x y, in_roi example_roi x y → out' (y*6+x) = 255 →
        (hysteresis 6 example_roi 20 100 example_field (y*6+x)).g = (example_field (y*6+x)).g ∧
        (example_field (y*6+x)).g > 0 ∧
        ∃ a b, spec_neighbours (example_field (y*6+x)).t x y = some (a, b) ∧
          ((hysteresis 6 example_roi 20 100 example_field (a.2*6+a.1)).g =
              (hysteresis 6 example_roi 60 110 example_field (a.2*6+a.1)).g →
            (hysteresis 6 example_roi 20 100 example_field (b.2*6+b.1)).g =
              (hysteresis 6 example_roi 60 110 example_field (b.2*6+b.1)).g →
            out (y*6+x) = 255) :=
  ⟨by decide, fun x y _ _ => example_field_valid (y*6+x), by decide, by decide,
    raising_thresholds_keeps_edge 6 6 example_roi example_field example_image.data 20 100 60 110
      (by decide) (fun x y _ _ => example_field_valid (y*6+x)) (by decide) (by decide)⟩

theorem nms_out_255 (w : Int) (roi : rectangle_t) (gm : Int → gvec_t) (x y : Int)
    (ht : ¬ nms_border roi x y → valid_class (gm (y*w+x)).t)
    (h : nms_out w roi gm x y = 255) :
    ¬ nms_border roi x y ∧
    ∃ a b, spec_neighbours (gm (y*w+x)).t x y = some (a, b) ∧
      (gm (y*w+x)).g > (gm (a.2*w+a.1)).g ∧ (gm (y*w+x)).g > (gm (b.2*w+b.1)).g := by
  have hb : ¬ nms_border roi x y := by
    intro hb
    rw [nms_out_border _ _ _ _ _ hb] at h
    exact absurd h (by decide)
  obtain ⟨a, b, hab, ho⟩ := nms_out_interior w roi gm x y hb (ht hb)
  refine ⟨hb, a, b, hab, ?_⟩
  by_contra hn
  rw [ho, if_neg hn] at h
  exact absurd h (by decide)

theorem spec_neighbours_symm (t : Nat) (x y x' y' : Int) (a b : Int × Int)
    (h : spec_neighbours t x y = some (a, b)) (hq : (x', y') = a ∨ (x', y') = b) :
    ∃ a' b', spec_neighbours t x' y' = some (a', b') ∧ ((x, y) = a' ∨ (x, y) = b') := by
  unfold spec_neighbours at h ⊢
  split_ifs at h ⊢ with h0 h45 h90 h135
  all_goals
    simp only [Option.some.injEq, Prod.mk.injEq] at h
    obtain ⟨ha, hb⟩ := h
    subst ha; subst hb
    simp only [Prod.mk.injEq] at hq
    rcases hq with ⟨e1, e2⟩ | ⟨e1, e2⟩ <;> subst e1 <;> subst e2 <;>
      refine ⟨_, _, rfl, ?_⟩ <;> simp

theorem not_border_processed (roi : rectangle_t) (x y : Int)
    (hb : ¬ nms_border roi x y) : processed roi x y := by
  unfold nms_border at hb
  unfold processed in_rect
  omega

/-- C16: for every field with valid classes at the pixels that are not within 2 of the border
of an ROI inside the image, the last stage returns, and of two ROI pixels `P` and `Q` that have
the same direction class, `Q` being one of the two neighbours that class selects for `P`, at
most one is 255 in the output. -/
theorem nms_thins_edges (w h : Int) (roi : rectangle_t) (gm : Int → gvec_t)
    (data : Int → Nat) (hroi : roi_inside w h roi)
    (ht : ∀ x y, in_roi roi x y → ¬ nms_border roi x y → valid_class (gm (y*w+x)).t) :
    ∃ out, nms w roi gm data = some out ∧
      ∀ x y x' y', in_roi roi x y → in_roi roi x' y' →
        (gm (y*w+x)).t = (gm (y'*w+x')).t →
        (∃ a b, spec_neighbours (gm (y*w+x)).t x y = some (a, b) ∧
          ((x', y') = a ∨ (x', y') = b)) →
        ¬ (out (y*w+x) = 255 ∧ out (y'*w+x') = 255) := by
  refine ⟨_, nms_eq_pure w roi gm data ht, ?_⟩
  rintro x y x' y' hr hr' hsame ⟨a, b, hab, hq⟩ ⟨hP, hQ⟩
  rw [(nms_pure_cells w h roi gm data hroi).1 x y hr] at hP
  rw [(nms_pure_cells w h roi gm data hroi).1 x' y' hr'] at hQ
  obtain ⟨_, a1, b1, hab1, hPa, hPb⟩ := nms_out_255 w roi gm x y (ht x y hr) hP
  obtain ⟨_, a2, b2, hab2, hQa, hQb⟩ := nms_out_255 w roi gm x' y' (ht x' y' hr') hQ
  rw [hab] at hab1
  obtain ⟨rfl, rfl⟩ : a = a1 ∧ b = b1 := by
    have := Option.some.inj hab1
    exact ⟨congrArg Prod.fst this, congrArg Prod.snd this⟩
  obtain ⟨a', b', hab', hp⟩ := spec_neighbours_symm _ x y x' y' a b hab hq
  rw [hsame, hab2] at hab'
  obtain ⟨rfl, rfl⟩ : a2 = a' ∧ b2 = b' := by
    have := Option.some.inj hab'
    exact ⟨congrArg Prod.fst this, congrArg Prod.snd this⟩
  rcases hq with e | e <;> rcases hp with e' | e' <;>
    (subst e; subst e'; simp only at hPa hPb hQa hQb; omega)

theorem nms_thins_edges_witness :
    roi_inside 6 6 example_roi ∧
    (∀ x y, in_roi example_roi x y → ¬ nms_border example_roi x y →
      valid_class (example_field (y*6+x)).t) ∧
    ∃ out, nms 6 example_roi example_field example_image.data = some out ∧
      ∀ x y x' y', in_roi example_roi x y → in_roi example_roi x' y' →
        (example_field (y*6+x)).t = (example_field (y'*6+x')).t →
        (∃ a b, spec_neighbours (example_field (y*6+x)).t x y = some (a, b) ∧
          ((x', y') = a ∨ (x', y') = b)) →
        ¬ (out (y*6+x) = 255 ∧ out (y'*6+x') = 255) :=
  ⟨by decide, fun x y _ _ => example_field_valid (y*6+x),
    nms_thins_edges 6 6 example_roi example_field example_image.data (by decide)
      (fun x y _ _ => example_field_valid (y*6+x))⟩

theorem not_in_roi_index (w h : Int) (roi : rectangle_t) (hroi : roi_inside w h roi)
    (x y : Int) (hx0 : 0 ≤ x) (hxw : x < w) (hn : ¬ in_roi roi x y) :
    ∀ x' y', in_roi roi x' y' → y*w+x ≠ y'*w+x' := by
  intro x' y' hp he
  have hp' := hp
  unfold roi_inside at hroi
  unfold in_roi in_rect at hp'
  obtain ⟨e1, e2⟩ := index_inj w x y x' y' hx0 hxw (by omega) (by omega) he
  subst e1; subst e2
  exact hn hp

/-- C18: for an ROI inside the image (and angles in `[0, 180]`), `imlib_edge_canny` returns
an image with the width and height of the source in which every sample at a pixel of the image
outside the ROI, and every cell that is not the cell of an ROI pixel, holds the smoothed value
left by `imlib_morph`: stages 2 to 4 store samples at ROI pixels only. -/
theorem canny_frame (E : externals) (src : image_t) (roi : rectangle_t) (low high : Int)
    (hE : angle_in_range E) (hroi : roi_inside src.w src.h roi) :
    ∃ out, imlib_edge_canny E src roi low high = some out ∧
      out.w = src.w ∧ out.h = src.h ∧
      (∀ x y, 0 ≤ x → x < src.w → 0 ≤ y → y < src.h → ¬ in_roi roi x y →
        out.data (y*src.w+x) = E.imlib_morph src (y*src.w+x)) ∧
      (∀ j, (∀ x y, in_roi roi x y → j ≠ y*src.w+x) → out.data j = E.imlib_morph src j) := by
  have hc := (nms_pure_cells src.w src.h roi (hysteresis src.w roi low high
    (gradient E (E.imlib_morph src) src.w roi fb_alloc0)) (E.imlib_morph src) hroi).2
  refine ⟨_, imlib_edge_canny_eq E src roi low high hE, rfl, rfl, ?_, ?_⟩
  · intro x y hx0 hxw _ _ hn
    exact hc _ (not_in_roi_index src.w src.h roi hroi x y hx0 hxw hn)
  · intro j hj
    exact hc j hj

theorem canny_frame_witness :
    angle_in_range example_externals ∧ roi_inside example_image.w example_image.h example_roi ∧
    ∃ out, imlib_edge_canny example_externals example_image example_roi 20 100 = some out ∧
      out.w = example_image.w ∧ out.h = example_image.h ∧
      (∀ x y, 0 ≤ x → x < example_image.w → 0 ≤ y → y < example_image.h →
        ¬ in_roi example_roi x y →
        out.data (y*example_image.w+x) =
          example_externals.imlib_morph example_image (y*example_image.w+x)) ∧
      (∀ j, (∀ x y, in_roi example_roi x y → j ≠ y*example_image.w+x) →
        out.data j = example_externals.imlib_morph example_image j) :=
  ⟨example_angle_in_range, by decide,
    canny_frame example_externals example_image example_roi 20 100 example_angle_in_range
      (by decide)⟩

/-- C20: for every gradient field (valid classes at the pixels that are not within 2 of the
border of an ROI inside the image) and thresholds `low <= high`, hysteresis and the last stage
return, and every ROI pixel that is 255 in the output had before hysteresis a magnitude `g`
with `g > 0` and `g >= low`, and either `g >= high` or one of its 8 neighbours had a magnitude
`>= high`; so no pixel of magnitude below `low` is reported as an edge. -/
theorem thresholds_honoured (w h : Int) (roi : rectangle_t) (gm : Int → gvec_t)
    (data : Int → Nat) (low high : Int) (hroi : roi_inside w h roi)
    (ht : ∀ x y, in_roi roi x y → ¬ nms_border roi x y → valid_class (gm (y*w+x)).t)
    (hlh : low ≤ high) :
    ∃ out, nms w roi (hysteresis w roi low high gm) data = some out ∧
      ∀ x y, in_roi roi x y → out (y*w+x) = 255 →
        (gm (y*w+x)).g > 0 ∧ low ≤ ((gm (y*w+x)).g : Int) ∧
        (((gm (y*w+x)).g : Int) ≥ high ∨
          ∃ p ∈ neighbours8 x y, ((gm (p.2*w+p.1)).g : Int) ≥ high) := by
  have hv : ∀ x y, in_roi roi x y → ¬ nms_border roi x y →
      valid_class (hysteresis w roi low high gm (y*w+x)).t := by
    intro x y hr hb
    rw [hysteresis_t]
    exact ht x y hr hb
  refine ⟨_, nms_eq_pure w roi _ data hv, ?_⟩
  intro x y hr h255
  rw [(nms_pure_cells w h roi _ data hroi).1 x y hr] at h255
  obtain ⟨hb, a, b, _, hga, _⟩ := nms_out_255 w roi _ x y (hv x y hr) h255
  have hp := not_border_processed roi x y hb
  rw [(hysteresis_cells w roi low high gm).1 x y hp, hysteresis_entry_eq_rule] at hga
  simp only at hga
  have hpos : snapshot_rule gm w low high x y > 0 := by omega
  unfold snapshot_rule at hpos
  simp only at hpos
  split_ifs at hpos with h1 h2 h3
  · exact ⟨hpos, by omega, Or.inl h1⟩
  · exact absurd hpos (by decide)
  · exact ⟨hpos, by omega, Or.inr h3⟩
  · exact absurd hpos (by decide)

theorem thresholds_honoured_witness :
    roi_inside 6 6 example_roi ∧
    (∀ x y, in_roi example_roi x y → ¬ nms_border example_roi x y →
      valid_class (example_field (y*6+x)).t) ∧
    (20 : Int) ≤ 100 ∧
    ∃ out, nms 6 example_roi (hysteresis 6 example_roi 20 100 example_field)
        example_image.data = some out ∧
      ∀ x y, in_roi example_roi x y → out (y*6+x) = 255 →
        (example_field (y*6+x)).g > 0 ∧ (20 : Int) ≤ ((example_field (y*6+x)).g : Int) ∧
        (((example_field (y*6+x)).g : Int) ≥ 100 ∨
          ∃ p ∈ neighbours8 x y, ((example_field (p.2*6+p.1)).g : Int) ≥ 100) :=
  ⟨by decide, fun x y _ _ => example_field_valid (y*6+x), by decide,
    thresholds_honoured 6 6 example_roi example_field example_image.data 20 100 (by decide)
      (fun x y _ _ => example_field_valid (y*6+x)) (by decide)⟩

theorem index_in_range (w h x y : Int) (hx0 : 0 ≤ x) (hxw : x < w) (hy0 : 0 ≤ y) (hyh : y < h) :
    0 ≤ y*w+x ∧ y*w+x < w*h := by
  constructor
  · have := mul_nonneg hy0 (by omega : (0:Int) ≤ w)
    omega
  · have h1 : (y+1)*w ≤ h*w := mul_le_mul_of_nonneg_right (by omega) (by omega)
    have h2 : (y+1)*w = y*w + w := by ring
    have h3 : h*w = w*h := by ring
    omega

theorem read_chk_some {α : Type} (n : Int) (buf : Int → α) (i : Int) (h : 0 ≤ i ∧ i < n) :
    read_chk n buf i = some (buf i) := by
  unfold read_chk
  rw [if_pos h]

theorem write_chk_some {α : Type} (n : Int) (buf : Int → α) (i : Int) (v : α)
    (h : 0 ≤ i ∧ i < n) : write_chk n buf i v = some (buf_set buf i v) := by
  unfold write_chk
  rw [if_pos h]

/-- The cells of the pixels around a processed pixel lie in the buffer. -/
theorem processed_neighbour_in_range (w h : Int) (roi : rectangle_t)
    (hroi : roi_inside w h roi) (x y : Int) (hp : processed roi x y) (dx dy : Int)
    (h1 : -1 ≤ dx) (h2 : dx ≤ 1) (h3 : -1 ≤ dy) (h4 : dy ≤ 1) :
    0 ≤ (y+dy)*w+(x+dx) ∧ (y+dy)*w+(x+dx) < w*h := by
  unfold roi_inside at hroi
  unfold processed in_rect at hp
  exact index_in_range w h _ _ (by omega) (by omega) (by omega) (by omega)

theorem sobel_chk_eq (w h : Int) (roi : rectangle_t) (hroi : roi_inside w h roi)
    (data : Int → Nat) (x y : Int) (hp : processed roi x y) :
    sobel_vx_chk (w*h) data w x y = some (sobel_vx data w x y) ∧
    sobel_vy_chk (w*h) data w x y = some (sobel_vy data w x y) := by
  have hn := processed_neighbour_in_range w h roi hroi x y hp
  have a1 : 0 ≤ (y-1)*w+x-1 ∧ (y-1)*w+x-1 < w*h := by
    have := hn (-1) (-1) (by omega) (by omega) (by omega) (by omega)
    rwa [show (y+(-1))*w+(x+(-1)) = (y-1)*w+x-1 by ring] at this
  have a2 : 0 ≤ (y-1)*w+x+0 ∧ (y-1)*w+x+0 < w*h := by
    have := hn 0 (-1) (by omega) (by omega) (by omega) (by omega)
    rwa [show (y+(-1))*w+(x+0) = (y-1)*w+x+0 by ring] at this
  have a3 : 0 ≤ (y-1)*w+x+1 ∧ (y-1)*w+x+1 < w*h := by
    have := hn 1 (-1) (by omega) (by omega) (by omega) (by omega)
    rwa [show (y+(-1))*w+(x+1) = (y-1)*w+x+1 by ring] at this
  have a4 : 0 ≤ (y+0)*w+x-1 ∧ (y+0)*w+x-1 < w*h := by
    have := hn (-1) 0 (by omega) (by omega) (by omega) (by omega)
    rwa [show (y+0)*w+(x+(-1)) = (y+0)*w+x-1 by ring] at this
  have a5 : 0 ≤ (y+0)*w+x+1 ∧ (y+0)*w+x+1 < w*h := by
    have := hn 1 0 (by omega) (by omega) (by omega) (by omega)
    rwa [show (y+0)*w+(x+1) = (y+0)*w+x+1 by ring] at this
  have a6 : 0 ≤ (y+1)*w+x-1 ∧ (y+1)*w+x-1 < w*h := by
    have := hn (-1) 1 (by omega) (by omega) (by omega) (by omega)
    rwa [show (y+1)*w+(x+(-1)) = (y+1)*w+x-1 by ring] at this
  have a7 : 0 ≤ (y+1)*w+x+0 ∧ (y+1)*w+x+0 < w*h := by
    have := hn 0 1 (by omega) (by omega) (by omega) (by omega)
    rwa [show (y+1)*w+(x+0) = (y+1)*w+x+0 by ring] at this
  have a8 : 0 ≤ (y+1)*w+x+1 ∧ (y+1)*w+x+1 < w*h := by
    have := hn 1 1 (by omega) (by omega) (by omega) (by omega)
    rwa [show (y+1)*w+(x+1) = (y+1)*w+x+1 by ring] at this
  constructor
  · unfold sobel_vx_chk sobel_vx
    simp only [read_chk_some _ _ _ a1, read_chk_some _ _ _ a3, read_chk_some _ _ _ a4,
      read_chk_some _ _ _ a5, read_chk_some _ _ _ a6, read_chk_some _ _ _ a8]
    rfl
  · unfold sobel_vy_chk sobel_vy
    simp only [read_chk_some _ _ _ a1, read_chk_some _ _ _ a2, read_chk_some _ _ _ a3,
      read_chk_some _ _ _ a6, read_chk_some _ _ _ a7, read_chk_some _ _ _ a8]
    rfl

theorem gradient_pixel_chk_eq (E : externals) (w h : Int) (roi : rectangle_t)
    (hroi : roi_inside w h roi) (data : Int → Nat) (gm : Int → gvec_t) (x y : Int)
    (hp : processed roi x y) :
    gradient_pixel_chk E (w*h) data w gm x y = some (gradient_pixel E data w gm x y) := by
  obtain ⟨hx, hy⟩ := sobel_chk_eq w h roi hroi data x y hp
  have hc : 0 ≤ y*w+x ∧ y*w+x < w*h := by
    have := processed_neighbour_in_range w h roi hroi x y hp 0 0 (by omega) (by omega)
      (by omega) (by omega)
    simpa using this
  unfold gradient_pixel_chk gradient_pixel gradient_entry
  simp only [hx, hy, write_chk_some _ _ _ _ hc]
  rfl

theorem any_strong_chk_eq (n : Int) (gm : Int → gvec_t) (high : Int) (l : List Int)
    (hl : ∀ i ∈ l, 0 ≤ i ∧ i < n) :
    any_strong_chk n gm high l = some (decide (∃ i ∈ l, ((gm i).g : Int) ≥ high)) := by
  induction l with
  | nil => simp [any_strong_chk]
  | cons i rest ih =>
    unfold any_strong_chk
    rw [read_chk_some _ _ _ (hl i (List.mem_cons_self _ _))]
    simp only
    by_cases h : ((gm i).g : Int) ≥ high
    · simp [h]
    · rw [if_neg h, ih (fun j hj => hl j (List.mem_cons_of_mem _ hj))]
      simp [h]

theorem strong_neighbour_iff_indices (gm : Int → gvec_t) (w high x y : Int) :
    strong_neighbour gm w high x y ↔
      ∃ i ∈ neighbour_indices w x y, ((gm i).g : Int) ≥ high := by
  unfold strong_neighbour neighbour_indices
  simp only [List.mem_cons, List.mem_singleton, exists_eq_or_imp, exists_eq_left,
    List.not_mem_nil, false_and, exists_false, or_false]

theorem neighbour_indices_in_range (w h : Int) (roi : rectangle_t)
    (hroi : roi_inside w h roi) (x y : Int) (hp : processed roi x y) :
    ∀ i ∈ neighbour_indices w x y, 0 ≤ i ∧ i < w*h := by
  have hn := processed_neighbour_in_range w h roi hroi x y hp
  intro i hi
  unfold neighbour_indices at hi
  simp only [List.mem_cons, List.mem_singleton, List.not_mem_nil, or_false] at hi
  rcases hi with rfl | rfl | rfl | rfl | rfl | rfl | rfl | rfl
  · simpa [sub_eq_add_neg] using hn (-1) (-1) (by omega) (by omega) (by omega) (by omega)
  · simpa [sub_eq_add_neg] using hn 0 (-1) (by omega) (by omega) (by omega) (by omega)
  · simpa [sub_eq_add_neg] using hn 1 (-1) (by omega) (by omega) (by omega) (by omega)
  · simpa [sub_eq_add_neg] using hn (-1) 0 (by omega) (by omega) (by omega) (by omega)
  · simpa [sub_eq_add_neg] using hn 1 0 (by omega) (by omega) (by omega) (by omega)
  · simpa [sub_eq_add_neg] using hn (-1) 1 (by omega) (by omega) (by omega) (by omega)
  · simpa [sub_eq_add_neg] using hn 0 1 (by omega) (by omega) (by omega) (by omega)
  · simpa [sub_eq_add_neg] using hn 1 1 (by omega) (by omega) (by omega) (by omega)

theorem hysteresis_pixel_chk_eq (w h : Int) (roi : rectangle_t) (hroi : roi_inside w h roi)
    (low high : Int) (gm : Int → gvec_t) (x y : Int) (hp : processed roi x y) :
    hysteresis_pixel_chk (w*h) w low high gm x y =
      some (hysteresis_pixel w low high gm x y) := by
  have hc : 0 ≤ y*w+x ∧ y*w+x < w*h := by
    have := processed_neighbour_in_range w h roi hroi x y hp 0 0 (by omega) (by omega)
      (by omega) (by omega)
    simpa using this
  unfold hysteresis_pixel_chk hysteresis_pixel hysteresis_entry
  rw [read_chk_some _ _ _ hc]
  simp only [write_chk_some _ _ _ _ hc,
    any_strong_chk_eq _ gm high _ (neighbour_indices_in_range w h roi hroi x y hp),
    strong_neighbour_iff_indices]
  by_cases h1 : ((gm (y*w+x)).g : Int) ≥ high
  · simp only [h1, if_true]
  · by_cases h2 : ((gm (y*w+x)).g : Int) < low
    · simp only [h1, h2, if_true, if_false]
    · simp only [h1, h2, if_false]
      by_cases h3 : ∃ i ∈ neighbour_indices w x y, ((gm i).g : Int) ≥ high
      · simp only [h3, decide_True, if_true]
      · simp only [h3, decide_False, if_false]

theorem nms_select_in_range (w h : Int) (roi : rectangle_t) (hroi : roi_inside w h roi)
    (t : Nat) (x y : Int) (hb : ¬ nms_border roi x y) (a b : Int)
    (hsel : nms_select w t x y = some (a, b)) :
    (0 ≤ a ∧ a < w*h) ∧ (0 ≤ b ∧ b < w*h) := by
  unfold roi_inside at hroi
  unfold nms_border at hb
  unfold nms_select at hsel
  split_ifs at hsel
  all_goals
    simp only [Option.some.injEq, Prod.mk.injEq] at hsel
    obtain ⟨ha, hb'⟩ := hsel
    subst ha; subst hb'
    exact ⟨index_in_range w h _ _ (by omega) (by omega) (by omega) (by omega),
      index_in_range w h _ _ (by omega) (by omega) (by omega) (by omega)⟩

theorem nms_pixel_chk_eq (w h : Int) (roi : rectangle_t) (hroi : roi_inside w h roi)
    (gm : Int → gvec_t) (data : Int → Nat) (x y : Int) (hr : in_roi roi x y) :
    nms_pixel_chk (w*h) w roi gm data x y = nms_pixel w roi gm data x y := by
  have hc : 0 ≤ y*w+x ∧ y*w+x < w*h := by
    have hroi' := hroi
    unfold roi_inside at hroi'
    have hr' := hr
    unfold in_roi in_rect at hr'
    exact index_in_range w h x y (by omega) (by omega) (by omega) (by omega)
  unfold nms_pixel_chk nms_pixel
  by_cases hb : nms_border roi x y
  · simp only [hb, if_true, write_chk_some _ _ _ _ hc]
  · simp only [hb, if_false, read_chk_some _ _ _ hc]
    cases hsel : nms_select w (gm (y*w+x)).t x y with
    | none => rfl
    | some ab =>
      obtain ⟨a, b⟩ := ab
      obtain ⟨ha, hb'⟩ := nms_select_in_range w h roi hroi _ x y hb a b hsel
      simp only [read_chk_some _ _ _ ha, read_chk_some _ _ _ hb', write_chk_some _ _ _ _ hc]

theorem for_loop_opt_congr {σ : Type} (body body' : Int → σ → Option σ) :
    ∀ (n : Nat) (lo : Int) (s : σ),
      (∀ i s, lo ≤ i → i < lo + n → body i s = body' i s) →
      for_loop_opt body n lo s = for_loop_opt body' n lo s := by
  intro n
  induction n with
  | zero => intro lo s _; rfl
  | succ n ih =>
    intro lo s h
    have h1 := h lo s (le_refl _) (by push_cast; omega)
    simp only [for_loop_opt, h1]
    cases body' lo s with
    | none => rfl
    | some s' =>
      simp only [Option.some_bind]
      exact ih (lo + 1) s' (fun i s hi hi2 => h i s (by omega) (by push_cast; omega))

theorem for_range_opt_congr {σ : Type} (lo hi : Int) (body body' : Int → σ → Option σ)
    (s : σ) (h : ∀ i s, lo ≤ i → i < hi → body i s = body' i s) :
    for_range_opt lo hi body s = for_range_opt lo hi body' s := by
  unfold for_range_opt
  apply for_loop_opt_congr
  intro i s hli hi2
  apply h i s hli
  rcases le_total lo hi with h' | h'
  · rw [Int.toNat_of_nonneg (by omega)] at hi2; omega
  · rw [Int.toNat_eq_zero.mpr (by omega)] at hi2; simp at hi2; omega

theorem gradient_chk_eq (E : externals) (w h : Int) (roi : rectangle_t)
    (hroi : roi_inside w h roi) (data : Int → Nat) (gm : Int → gvec_t) :
    gradient_chk E (w*h) data w roi gm = some (gradient E data w roi gm) := by
  unfold gradient_chk gradient
  apply for_range_opt_some
  intro y s hy0 hy1
  apply for_range_opt_some
  intro x s' hx0 hx1
  exact gradient_pixel_chk_eq E w h roi hroi data s' x y ⟨hy0, hy1, hx0, hx1⟩

theorem hysteresis_chk_eq (w h : Int) (roi : rectangle_t) (hroi : roi_inside w h roi)
    (low high : Int) (gm : Int → gvec_t) :
    hysteresis_chk (w*h) w roi low high gm = some (hysteresis w roi low high gm) := by
  unfold hysteresis_chk hysteresis
  apply for_range_opt_some
  intro y s hy0 hy1
  apply for_range_opt_some
  intro x s' hx0 hx1
  exact hysteresis_pixel_chk_eq w h roi hroi low high s' x y ⟨hy0, hy1, hx0, hx1⟩

theorem nms_chk_eq (w h : Int) (roi : rectangle_t) (hroi : roi_inside w h roi)
    (gm : Int → gvec_t) (data : Int → Nat) :
    nms_chk (w*h) w roi gm data = nms w roi gm data := by
  unfold nms_chk nms
  apply for_range_opt_congr
  intro y s hy0 hy1
  apply for_range_opt_congr
  intro x s' hx0 hx1
  exact nms_pixel_chk_eq w h roi hroi gm s' x y ⟨hy0, hy1, hx0, hx1⟩

/-- C17: for every image of width `w` and height `h` and every ROI inside it (of any size),
running the gradient, hysteresis and last stages with bounds-checked accesses of the image
buffer and of the gradient field, both of `w*h` cells, never takes the out-of-range branch:
the checked gradient and hysteresis stages return what the unchecked ones compute, and the
checked last stage and the checked pipeline equal the unchecked ones.  Every neighbour
`(x+dx, y+dy)` addressed around a pixel the loops process is an ROI pixel, and the cell of
every ROI pixel lies in `[0, w*h)`. -/
theorem index_safety (E : externals) (data : Int → Nat) (w h : Int) (roi : rectangle_t)
    (low high : Int) (gm : Int → gvec_t) (hroi : roi_inside w h roi) :
    gradient_chk E (w*h) data w roi gm = some (gradient E data w roi gm) ∧
    hysteresis_chk (w*h) w roi low high gm = some (hysteresis w roi low high gm) ∧
    nms_chk (w*h) w roi gm data = nms w roi gm data ∧
    canny_stages_chk E (w*h) data w roi low high = canny_stages E data w roi low high ∧
    (∀ x y, processed roi x y → ∀ dx dy : Int, -1 ≤ dx → dx ≤ 1 → -1 ≤ dy → dy ≤ 1 →
      in_roi roi (x+dx) (y+dy)) ∧
    (∀ x y, in_roi roi x y → ¬ nms_border roi x y →
      ∀ dx dy : Int, -1 ≤ dx → dx ≤ 1 → -1 ≤ dy → dy ≤ 1 → in_roi roi (x+dx) (y+dy)) ∧
    (∀ x y, in_roi roi x y → 0 ≤ y*w+x ∧ y*w+x < w*h) := by
  refine ⟨gradient_chk_eq E w h roi hroi data gm, hysteresis_chk_eq w h roi hroi low high gm,
    nms_chk_eq w h roi hroi gm data, ?_, ?_, ?_, ?_⟩
  · unfold canny_stages_chk canny_stages
    rw [gradient_chk_eq E w h roi hroi data fb_alloc0]
    simp only [Option.some_bind]
    rw [hysteresis_chk_eq w h roi hroi low high]
    simp only [Option.some_bind]
    exact nms_chk_eq w h roi hroi _ data
  · intro x y hp dx dy h1 h2 h3 h4
    unfold processed in_rect at hp
    unfold in_roi in_rect
    omega
  · intro x y _ hb dx dy h1 h2 h3 h4
    unfold nms_border at hb
    unfold in_roi in_rect
    omega
  · intro x y hr
    have hroi' := hroi
    unfold roi_inside at hroi'
    unfold in_roi in_rect at hr
    exact index_in_range w h x y (by omega) (by omega) (by omega) (by omega)

theorem index_safety_witness :
    roi_inside 6 6 example_roi ∧
    (gradient_chk example_externals (6*6) example_image.data 6 example_roi example_field =
      some (gradient example_externals example_image.data 6 example_roi example_field) ∧
    hysteresis_chk (6*6) 6 example_roi 20 100 example_field =
      some (hysteresis 6 example_roi 20 100 example_field) ∧
    nms_chk (6*6) 6 example_roi example_field example_image.data =
      nms 6 example_roi example_field example_image.data ∧
    canny_stages_chk example_externals (6*6) example_image.data 6 example_roi 20 100 =
      canny_stages example_externals example_image.data 6 example_roi 20 100 ∧
    (∀ x y, processed example_roi x y →
      ∀ dx dy : Int, -1 ≤ dx → dx ≤ 1 → -1 ≤ dy → dy ≤ 1 → in_roi example_roi (x+dx) (y+dy)) ∧
    (∀ x y, in_roi example_roi x y → ¬ nms_border example_roi x y →
      ∀ dx dy : Int, -1 ≤ dx → dx ≤ 1 → -1 ≤ dy → dy ≤ 1 → in_roi example_roi (x+dx) (y+dy)) ∧
    (∀ x y, in_roi example_roi x y → 0 ≤ y*6+x ∧ y*6+x < 6*6)) :=
  ⟨by decide, index_safety example_externals example_image.data 6 6 example_roi 20 100
    example_field (by decide)⟩

theorem sobel_bounds (data : Int → Nat) (w x y : Int) (h255 : ∀ i, data i ≤ 255) :
    -1020 ≤ sobel_vx data w x y ∧ sobel_vx data w x y ≤ 1020 ∧
    -1020 ≤ sobel_vy data w x y ∧ sobel_vy data w x y ≤ 1020 := by
  unfold sobel_vx sobel_vy
  simp only [Nat.shiftLeft_eq, pow_one]
  have a1 := h255 ((y-1)*w+x-1)
  have a2 := h255 ((y-1)*w+x+0)
  have a3 := h255 ((y-1)*w+x+1)
  have a4 := h255 ((y+0)*w+x-1)
  have a5 := h255 ((y+0)*w+x+1)
  have a6 := h255 ((y+1)*w+x-1)
  have a7 := h255 ((y+1)*w+x+0)
  have a8 := h255 ((y+1)*w+x+1)
  push_cast
  omega

theorem example_sqrt (n : Int) :
    int_cast (example_externals.fast_sqrtf n) = (Nat.sqrt n.toNat : Int) := by
  simp only [example_externals]
  have e : ((Nat.sqrt n.toNat : Nat) : ℚ) = (((Nat.sqrt n.toNat : Nat) : Int) : ℚ) := by
    push_cast; rfl
  rw [e, int_cast_intCast]

theorem example_image_8bit (i : Int) : example_image.data i ≤ 255 := by
  simp only [example_image]
  split_ifs <;> decide

/-- C19: for every 3x3 neighbourhood of 8-bit samples the Sobel responses satisfy
`-1020 <= vx <= 1020` and `-1020 <= vy <= 1020`, so `vx*vx + vy*vy` lies in `[0, 2080800]`,
below `2^31`; its integer square root is at most 1442, and when `(int) fast_sqrtf` is the
integer square root the magnitude stored in the 16-bit field is that square root, unchanged by
the reduction modulo `2^16`; every value in `0..180` fits the 16-bit direction field, and with
angles in `[0, 180]` the stored direction is the quantised class. -/
theorem gradient_numeric_range (E : externals) (data : Int → Nat) (w x y : Int)
    (h255 : ∀ i, data i ≤ 255)
    (hsq : ∀ n : Int, 0 ≤ n → int_cast (E.fast_sqrtf n) = (Nat.sqrt n.toNat : Int))
    (hE : angle_in_range E) :
    (-1020 ≤ sobel_vx data w x y ∧ sobel_vx data w x y ≤ 1020 ∧
      -1020 ≤ sobel_vy data w x y ∧ sobel_vy data w x y ≤ 1020) ∧
    (0 ≤ sobel_vx data w x y * sobel_vx data w x y + sobel_vy data w x y * sobel_vy data w x y ∧
      sobel_vx data w x y * sobel_vx data w x y + sobel_vy data w x y * sobel_vy data w x y
        ≤ 2080800 ∧ (2080800 : Int) < 2 ^ 31) ∧
    Nat.sqrt (sobel_vx data w x y * sobel_vx data w x y +
      sobel_vy data w x y * sobel_vy data w x y).toNat ≤ 1442 ∧
    (gradient_entry E data w x y).g = Nat.sqrt (sobel_vx data w x y * sobel_vx data w x y +
      sobel_vy data w x y * sobel_vy data w x y).toNat ∧
    (∀ t : Int, 0 ≤ t → t ≤ 180 → (to_uint16 t : Int) = t) ∧
    ((gradient_entry E data w x y).t : Int) =
      quantize (int_cast (E.fast_fabsf (E.atan2f_deg (sobel_vy data w x y)
        (sobel_vx data w x y)))) := by
  obtain ⟨hx0, hx1, hy0, hy1⟩ := sobel_bounds data w x y h255
  have hxx : sobel_vx data w x y * sobel_vx data w x y ≤ 1040400 := by nlinarith
  have hyy : sobel_vy data w x y * sobel_vy data w x y ≤ 1040400 := by nlinarith
  have hxx0 : 0 ≤ sobel_vx data w x y * sobel_vx data w x y := mul_self_nonneg _
  have hyy0 : 0 ≤ sobel_vy data w x y * sobel_vy data w x y := mul_self_nonneg _
  have hs : Nat.sqrt (sobel_vx data w x y * sobel_vx data w x y +
      sobel_vy data w x y * sobel_vy data w x y).toNat ≤ 1442 := by
    have : Nat.sqrt (sobel_vx data w x y * sobel_vx data w x y +
        sobel_vy data w x y * sobel_vy data w x y).toNat < 1443 := by
      apply Nat.sqrt_lt.mpr
      omega
    omega
  have h16 : ∀ t : Int, 0 ≤ t → t < 65536 → (to_uint16 t : Int) = t := by
    intro t h0 h1
    unfold to_uint16
    omega
  refine ⟨⟨hx0, hx1, hy0, hy1⟩, ⟨by omega, by omega, by norm_num⟩, hs, ?_,
    fun t h0 h1 => h16 t h0 (by omega), ?_⟩
  · unfold gradient_entry
    simp only
    rw [hsq _ (by omega)]
    unfold to_uint16
    omega
  · unfold gradient_entry
    simp only
    have hq := hE (sobel_vy data w x y) (sobel_vx data w x y)
    apply h16
    · unfold quantize; split_ifs <;> omega
    · unfold quantize; split_ifs <;> omega

theorem gradient_numeric_range_witness :
    (∀ i, example_image.data i ≤ 255) ∧
    (∀ n : Int, 0 ≤ n →
      int_cast (example_externals.fast_sqrtf n) = (Nat.sqrt n.toNat : Int)) ∧
    angle_in_range example_externals ∧
    ((-1020 ≤ sobel_vx example_image.data 6 2 2 ∧ sobel_vx example_image.data 6 2 2 ≤ 1020 ∧
      -1020 ≤ sobel_vy example_image.data 6 2 2 ∧ sobel_vy example_image.data 6 2 2 ≤ 1020) ∧
    (0 ≤ sobel_vx example_image.data 6 2 2 * sobel_vx example_image.data 6 2 2 +
        sobel_vy example_image.data 6 2 2 * sobel_vy example_image.data 6 2 2 ∧
      sobel_vx example_image.data 6 2 2 * sobel_vx example_image.data 6 2 2 +
        sobel_vy example_image.data 6 2 2 * sobel_vy example_image.data 6 2 2
        ≤ 2080800 ∧ (2080800 : Int) < 2 ^ 31) ∧
    Nat.sqrt (sobel_vx example_image.data 6 2 2 * sobel_vx example_image.data 6 2 2 +
      sobel_vy example_image.data 6 2 2 * sobel_vy example_image.data 6 2 2).toNat ≤ 1442 ∧
    (gradient_entry example_externals example_image.data 6 2 2).g =
      Nat.sqrt (sobel_vx example_image.data 6 2 2 * sobel_vx example_image.data 6 2 2 +
        sobel_vy example_image.data 6 2 2 * sobel_vy example_image.data 6 2 2).toNat ∧
    (∀ t : Int, 0 ≤ t → t ≤ 180 → (to_uint16 t : Int) = t) ∧
    ((gradient_entry example_externals example_image.data 6 2 2).t : Int) =
      quantize (int_cast (example_externals.fast_fabsf (example_externals.atan2f_deg
        (sobel_vy example_image.data 6 2 2) (sobel_vx example_image.data 6 2 2))))) :=
  ⟨example_image_8bit, fun n _ => example_sqrt n, example_angle_in_range,
    gradient_numeric_range example_externals example_image.data 6 2 2 example_image_8bit
      (fun n _ => example_sqrt n) example_angle_in_range⟩

end Canny
